import Mathlib

/-!
Verification of the score-computation core of the pm-service repository
(BSC / MPM performance-management backend).

The development shallowly embeds the relevant Python code:

* `Dec` models a Python `decimal.Decimal` value as an integer mantissa and a
  (base-ten) exponent.  Arithmetic in the source runs under Python's default
  decimal context: 28 significant digits, ROUND_HALF_EVEN.  `Dec.mul` and
  `Dec.divPow10` reproduce that rounding exactly; claims about exact decimal
  arithmetic (the MPM and BSC score formulas, the 0.8 threshold of the
  action-plan status engine) are settled against this model.
* Database tables are modelled as Lists of row structures kept in insertion
  order; a SQL `select ... where` is a `List.filter` (order preserving),
  `.first()` is `List.head?`, and an `order_by ... desc` is a descending
  insertion sort.  A query with no `order_by` clause returns table
  (insertion) order.
* Services that raise `HTTPException` are modelled as functions returning the
  (possibly updated) store together with an `Except Err` outcome; an
  exception raised before any `session.add` leaves the store component
  unchanged, exactly as in the source where the ORM transaction is never
  started on those paths.
* Dashboard aggregation claims are about which indicators enter which bucket
  and which sums they contribute to, not about decimal context rounding, so
  in that layer the stored numeric fields are abstracted to exact rationals
  (types `BSCIndicatorQ`, `BSCActualQ`, `MPMIndicatorQ`, `MPMActualQ`).

The file is organised as: all definitions first, then all lemmas and the
claim theorems.
-/

/-- Error outcomes surfaced by the services: `HTTPException(404)` from
`get_or_404` and `HTTPException(400)` from the duplicate/active-conflict
checks. -/
inductive Err where
  | notFound
  | conflict
  deriving DecidableEq, Repr

/-! ## Python `Decimal` values under the default context

A `Decimal` is a sign/mantissa/exponent triple; we fold the sign into an
integer mantissa.  The value of `⟨m, e⟩` is `m * 10 ^ e`.  Python's default
context (`decimal.getcontext()`) has `prec = 28` and `ROUND_HALF_EVEN`:
every arithmetic result is rounded to at most 28 significant digits, ties on
the dropped part going to the even neighbour. -/

structure Dec where
  m : ℤ
  e : ℤ
  deriving DecidableEq, Repr

namespace Dec

/-- Number of base-ten digits of `n` (Python counts the coefficient `0` as
one digit).  Fuel-based so that the kernel can evaluate it; 200 units of
fuel cover every number below `10 ^ 200`, far beyond anything arising
here. -/
def digitsAux : ℕ → ℕ → ℕ
  | 0, _ => 0
  | fuel + 1, n => if n < 10 then 1 else digitsAux fuel (n / 10) + 1

def digits10 (n : ℕ) : ℕ := digitsAux 200 n

/-- Round `n / d` (with `d > 0`) to the nearest natural number, ties to
even — the integer core of ROUND_HALF_EVEN. -/
def roundHalfEven (n d : ℕ) : ℕ :=
  let q := n / d
  let r := n % d
  if 2 * r < d then q
  else if d < 2 * r then q + 1
  else if q % 2 = 0 then q else q + 1

/-- Round a decimal to the context precision of 28 significant digits,
ROUND_HALF_EVEN, as Python's default context does with every arithmetic
result.  A mantissa that already fits is left untouched. -/
def round28 (x : Dec) : Dec :=
  let a := x.m.natAbs
  let dg := digits10 a
  if dg ≤ 28 then x
  else
    let s := dg - 28
    let q := roundHalfEven a (10 ^ s)
    ⟨if x.m < 0 then -(q : ℤ) else (q : ℤ), x.e + s⟩

/-- Multiplication under the default context: exact product of mantissas,
then context rounding. -/
def mul (x y : Dec) : Dec := round28 ⟨x.m * y.m, x.e + y.e⟩

/-- Division by `Decimal(10 ^ k)` under the default context.  The exact
quotient of `m·10^e` by `10^k` is `m·10^(e-k)`, and Python returns that
quotient correctly rounded to 28 significant digits, ROUND_HALF_EVEN. -/
def divPow10 (x : Dec) (k : ℕ) : Dec := round28 ⟨x.m, x.e - k⟩

/-- The rational value of a decimal.  Written with an `if` on the sign of
the exponent (rather than `zpow`) so that it evaluates by kernel
reduction. -/
def val (x : Dec) : ℚ :=
  if 0 ≤ x.e then (x.m : ℚ) * (10 : ℚ) ^ x.e.toNat
  else (x.m : ℚ) / (10 : ℚ) ^ (-x.e).toNat

/-- Python `Decimal` comparison `x <= y` is comparison of the numeric
values; bringing both mantissas to the smaller exponent turns it into an
integer comparison, which the kernel can evaluate. -/
def ble (x y : Dec) : Bool :=
  decide (x.m * 10 ^ (x.e - min x.e y.e).toNat ≤ y.m * 10 ^ (y.e - min x.e y.e).toNat)

end Dec

/-- `Decimal('0.8')`: the exact decimal 8·10⁻¹, as written (from a string)
in `MPMActionPlanRepository.calculate_status`. -/
def dec08 : Dec := ⟨8, -1⟩

/-- `Decimal(0.2)` as written in `BSCActualService`: Python converts the
IEEE-754 double nearest to 0.2, whose exact value is 3602879701896397/2⁵⁴
= (3602879701896397·5⁵⁴)·10⁻⁵⁴ — *not* one fifth. -/
def dec02float : Dec := ⟨3602879701896397 * 5 ^ 54, -54⟩

/-- `Decimal(2)`, exact. -/
def dec2 : Dec := ⟨2, 0⟩

/-! ## MPM actuals: `MPMActualService` (src/services/mpm.py)

Stores are lists in insertion order; `BaseRepository.get` selects the first
row with the given id that is not soft-deleted.  Ids stand for the `uuid4`
primary keys. -/

structure MPMIndicator where
  id : ℕ
  kpi : String
  weight : Dec
  period_id : ℕ
  is_active : Bool
  is_deleted : Bool
  deriving DecidableEq, Repr

structure MPMActual where
  id : ℕ
  indicator_id : ℕ
  actual_value : Dec
  achievement : Dec
  score : Dec
  is_deleted : Bool
  deriving DecidableEq, Repr

/-- `MPMActualCreate` payload. -/
structure MPMActualCreate where
  indicator_id : ℕ
  actual_value : Dec
  achievement : Dec
  deriving DecidableEq, Repr

/-- `MPMActualUpdate` payload; `none` means the field was not supplied
(pydantic `dict(exclude_unset=True)` drops it). -/
structure MPMActualUpdate where
  actual_value : Option Dec
  achievement : Option Dec
  deriving DecidableEq, Repr

structure MPMSt where
  inds : List MPMIndicator
  acts : List MPMActual
  deriving DecidableEq, Repr

/-- `BaseRepository.get`: first row with this id that is not soft-deleted. -/
def lookupMPMIndicator (rows : List MPMIndicator) (i : ℕ) : Option MPMIndicator :=
  (rows.filter (fun r => r.id == i && !r.is_deleted)).head?

def lookupMPMActual (rows : List MPMActual) (i : ℕ) : Option MPMActual :=
  (rows.filter (fun r => r.id == i && !r.is_deleted)).head?

/-- Replace the first row satisfying `p` by `f` of it — the ORM update of
the single object returned by `get` (ids are unique in the database). -/
def replaceFirst {α : Type} (p : α → Bool) (f : α → α) : List α → List α
  | [] => []
  | x :: xs => if p x then f x :: xs else x :: replaceFirst p f xs

/-- `score = (indicator.weight * actual_in.achievement) / Decimal(100)`
(mpm.py line 586): a context multiplication followed by a context division
by 10². -/
def mpmScoreCalc (weight achievement : Dec) : Dec :=
  Dec.divPow10 (Dec.mul weight achievement) 2

/-- `MPMActualService.create_actual`: resolve the indicator via
`get_or_404` (404 aborts before anything is added), compute the score, and
persist exactly one new row.  `newId` stands for the generated `uuid4`. -/
def MPMcreate_actual (st : MPMSt) (newId : ℕ) (inp : MPMActualCreate) :
    MPMSt × Except Err MPMActual :=
  match lookupMPMIndicator st.inds inp.indicator_id with
  | none => (st, .error .notFound)
  | some indicator =>
    let score := mpmScoreCalc indicator.weight inp.achievement
    let row : MPMActual :=
      ⟨newId, inp.indicator_id, inp.actual_value, inp.achievement, score, false⟩
    ({ st with acts := st.acts ++ [row] }, .ok row)

/-- `MPMActualService.update_actual`: fetch the actual, recompute the score
from the indicator's current weight only when `actual_value` or
`achievement` is in the payload (`achievement` falling back to the stored
one), and update the row in place. -/
def MPMupdate_actual (st : MPMSt) (actual_id : ℕ) (inp : MPMActualUpdate) :
    MPMSt × Except Err MPMActual :=
  match lookupMPMActual st.acts actual_id with
  | none => (st, .error .notFound)
  | some db_actual =>
    if inp.actual_value.isSome || inp.achievement.isSome then
      match lookupMPMIndicator st.inds db_actual.indicator_id with
      | none => (st, .error .notFound)
      | some indicator =>
        let achievement := inp.achievement.getD db_actual.achievement
        let score := mpmScoreCalc indicator.weight achievement
        let row : MPMActual :=
          { db_actual with
            actual_value := inp.actual_value.getD db_actual.actual_value
            achievement := achievement
            score := score }
        ({ st with
            acts := replaceFirst (fun r => r.id == actual_id && !r.is_deleted)
              (fun _ => row) st.acts },
          .ok row)
    else
      ({ st with
          acts := replaceFirst (fun r => r.id == actual_id && !r.is_deleted)
            (fun _ => db_actual) st.acts },
        .ok db_actual)

/-! ## BSC indicators and actuals: `BSCIndicatorService`, `BSCActualService`
(src/services/bsc.py) -/

structure BSCIndicator where
  id : ℕ
  code : String
  weight : Dec
  period_id : ℕ
  is_active : Bool
  is_deleted : Bool
  deriving DecidableEq, Repr

structure BSCActual where
  id : ℕ
  indicator_id : ℕ
  actual_value : String
  achievement : Dec
  score : Dec
  active_weight : Dec
  total_score : Dec
  score_akhir : Dec
  is_deleted : Bool
  deriving DecidableEq, Repr

structure BSCActualCreate where
  indicator_id : ℕ
  actual_value : String
  achievement : Dec
  deriving DecidableEq, Repr

structure BSCSt where
  inds : List BSCIndicator
  acts : List BSCActual
  deriving DecidableEq, Repr

def lookupBSCIndicator (rows : List BSCIndicator) (i : ℕ) : Option BSCIndicator :=
  (rows.filter (fun r => r.id == i && !r.is_deleted)).head?

/-- The derived fields of bsc.py lines 263-266:
`achievement = actual_in.achievement / Decimal(100)`,
`score = indicator.weight * achievement`,
`active_weight = indicator.weight * Decimal(2)`,
`total_score = score * Decimal(0.2)` — the last constant being the
float-contaminated `Decimal(0.2)` (`dec02float`), not one fifth.
Returns `(score, active_weight, total_score)`. -/
def bscDerive (weight achievement : Dec) : Dec × Dec × Dec :=
  let achievementDiv := Dec.divPow10 achievement 2
  let score := Dec.mul weight achievementDiv
  let active_weight := Dec.mul weight dec2
  let total_score := Dec.mul score dec02float
  (score, active_weight, total_score)

/-- `BSCActualService.create_actual`: resolve the indicator via
`get_or_404`, derive the four score fields, persist one new row
(`score_akhir` is set to `total_score`). -/
def BSCcreate_actual (st : BSCSt) (newId : ℕ) (inp : BSCActualCreate) :
    BSCSt × Except Err BSCActual :=
  match lookupBSCIndicator st.inds inp.indicator_id with
  | none => (st, .error .notFound)
  | some indicator =>
    let d := bscDerive indicator.weight inp.achievement
    let row : BSCActual :=
      ⟨newId, inp.indicator_id, inp.actual_value, inp.achievement,
        d.1, d.2.1, d.2.2, d.2.2, false⟩
    ({ st with acts := st.acts ++ [row] }, .ok row)

/-- `BSCIndicatorRepository.get_by_code`: first non-deleted indicator with
this code in this period. -/
def get_by_code (rows : List BSCIndicator) (code : String) (period_id : ℕ) :
    Option BSCIndicator :=
  (rows.filter (fun r => r.code == code && r.period_id == period_id && !r.is_deleted)).head?

structure BSCIndicatorCreate where
  code : String
  period_id : ℕ
  weight : Dec
  deriving DecidableEq, Repr

/-- `BSCIndicatorUpdate` payload; `none` = not supplied. -/
structure BSCIndicatorUpdate where
  code : Option String
  period_id : Option ℕ
  weight : Option Dec
  deriving DecidableEq, Repr

/-- `BSCIndicatorService.create_indicator`: reject when a non-deleted
indicator with the same (code, period) exists, otherwise persist. -/
def BSCcreate_indicator (inds : List BSCIndicator) (newId : ℕ)
    (inp : BSCIndicatorCreate) : List BSCIndicator × Except Err BSCIndicator :=
  match get_by_code inds inp.code inp.period_id with
  | some _ => (inds, .error .conflict)
  | none =>
    let row : BSCIndicator := ⟨newId, inp.code, inp.weight, inp.period_id, true, false⟩
    (inds ++ [row], .ok row)

/-- `BSCIndicatorService.update_indicator`: the duplicate check runs only
when the payload carries a truthy `code` that differs from the stored one
(`if indicator_in.code and indicator_in.code != db_indicator.code`); it is
then performed against `indicator_in.period_id or db_indicator.period_id`.
An update that changes only `period_id` is applied without any check. -/
def BSCupdate_indicator (inds : List BSCIndicator) (indicator_id : ℕ)
    (inp : BSCIndicatorUpdate) : List BSCIndicator × Except Err BSCIndicator :=
  match lookupBSCIndicator inds indicator_id with
  | none => (inds, .error .notFound)
  | some db_indicator =>
    let apply : List BSCIndicator × Except Err BSCIndicator :=
      let row : BSCIndicator :=
        { db_indicator with
          code := inp.code.getD db_indicator.code
          period_id := inp.period_id.getD db_indicator.period_id
          weight := inp.weight.getD db_indicator.weight }
      (replaceFirst (fun r => r.id == indicator_id && !r.is_deleted)
        (fun _ => row) inds, .ok row)
    match inp.code with
    | some c =>
      if c != "" && c != db_indicator.code then
        match get_by_code inds c (inp.period_id.getD db_indicator.period_id) with
        | some existing =>
          if existing.id != indicator_id then (inds, .error .conflict) else apply
        | none => apply
      else apply
    | none => apply

/-- No two rows of the list share a (code, period) key. -/
def noDupCodeKey : List BSCIndicator → Bool
  | [] => true
  | x :: xs =>
    (xs.all fun y => !(x.code == y.code && x.period_id == y.period_id)) && noDupCodeKey xs

/-- The uniqueness invariant of the spec: at most one **non-deleted** BSC
indicator per (code, period) pair. -/
def bscUniqueCodes (inds : List BSCIndicator) : Bool :=
  noDupCodeKey (inds.filter (fun r => !r.is_deleted))

/-! ## Action-plan status engine: `MPMActionPlanRepository.calculate_status`
and the quarterly-data services (src/repositories/mpm.py lines 418-445,
src/services/mpm.py lines 477-549). -/

inductive MPMStatus where
  | onTrack
  | atRisk
  | offTrack
  deriving DecidableEq, Repr

structure MPMQuarterlyData where
  id : ℕ
  action_plan_id : ℕ
  quarter : String
  target_value : Dec
  actual_value : Option Dec
  is_deleted : Bool
  deriving DecidableEq, Repr

/-- Insert into a list sorted by `quarter` descending (SQL
`order_by(quarter desc)`; the quarter labels "Q1".."Q4" compare by their
ASCII code points in SQL exactly as Lean `String` order does). -/
def insertByQuarterDesc (x : MPMQuarterlyData) :
    List MPMQuarterlyData → List MPMQuarterlyData
  | [] => [x]
  | y :: ys =>
    if y.quarter < x.quarter then x :: y :: ys else y :: insertByQuarterDesc x ys

def sortByQuarterDesc : List MPMQuarterlyData → List MPMQuarterlyData
  | [] => []
  | x :: xs => insertByQuarterDesc x (sortByQuarterDesc xs)

/-- The rows `calculate_status` selects: quarterly data of this action plan
with a non-null `actual_value`, not soft-deleted. -/
def statusCands (qds : List MPMQuarterlyData) (action_plan_id : ℕ) :
    List MPMQuarterlyData :=
  qds.filter (fun q =>
    q.action_plan_id == action_plan_id && q.actual_value.isSome && !q.is_deleted)

/-- `MPMActionPlanRepository.calculate_status`: take the candidate row with
the greatest quarter label (`order_by(quarter desc)` then `.first()`); On
Track when there is none; otherwise On Track / At Risk / Off Track by
comparing the actual against the target and against
`target * Decimal('0.8')` (a context multiplication).  The inner `none`
branch is unreachable (candidates are filtered on `actual_value != None`). -/
def calculate_status (qds : List MPMQuarterlyData) (action_plan_id : ℕ) : MPMStatus :=
  match (sortByQuarterDesc (statusCands qds action_plan_id)).head? with
  | none => .onTrack
  | some latest =>
    match latest.actual_value with
    | none => .onTrack
    | some a =>
      if Dec.ble latest.target_value a then .onTrack
      else if Dec.ble (Dec.mul latest.target_value dec08) a then .atRisk
      else .offTrack

structure MPMActionPlan where
  id : ℕ
  indicator_id : ℕ
  status : MPMStatus
  is_deleted : Bool
  deriving DecidableEq, Repr

/-- Store for the quarterly-data services: action plans and quarterly
rows. -/
structure QPlanSt where
  plans : List MPMActionPlan
  qds : List MPMQuarterlyData
  deriving DecidableEq, Repr

def lookupPlan (rows : List MPMActionPlan) (i : ℕ) : Option MPMActionPlan :=
  (rows.filter (fun r => r.id == i && !r.is_deleted)).head?

def lookupQD (rows : List MPMQuarterlyData) (i : ℕ) : Option MPMQuarterlyData :=
  (rows.filter (fun r => r.id == i && !r.is_deleted)).head?

/-- `MPMQuarterlyDataRepository.get_by_quarter`. -/
def get_by_quarter (rows : List MPMQuarterlyData) (action_plan_id : ℕ)
    (quarter : String) : Option MPMQuarterlyData :=
  (rows.filter (fun r =>
    r.action_plan_id == action_plan_id && r.quarter == quarter && !r.is_deleted)).head?

/-- `MPMActionPlanService.update_action_plan_status`: recompute the status
from the quarterly data and store it on the plan. -/
def update_action_plan_status (st : QPlanSt) (plan_id : ℕ) :
    QPlanSt × Except Err MPMActionPlan :=
  match lookupPlan st.plans plan_id with
  | none => (st, .error .notFound)
  | some db_plan =>
    let stat := calculate_status st.qds plan_id
    let row := { db_plan with status := stat }
    ({ st with
        plans := replaceFirst (fun r => r.id == plan_id && !r.is_deleted)
          (fun _ => row) st.plans },
      .ok row)

structure MPMQuarterlyDataCreate where
  action_plan_id : ℕ
  quarter : String
  target_value : Dec
  actual_value : Option Dec
  deriving DecidableEq, Repr

/-- `MPMQuarterlyDataUpdate` payload: the outer `Option` is "was the field
supplied" (pydantic `exclude_unset`), the inner one is the nullable
value. -/
structure MPMQuarterlyDataUpdate where
  target_value : Option Dec
  actual_value : Option (Option Dec)
  deriving DecidableEq, Repr

/-- `MPMQuarterlyDataService.create_quarterly_data`: reject a duplicate
quarter, persist the row, and refresh the owning plan's status only when
the payload's `actual_value` is not `None`. -/
def create_quarterly_data (st : QPlanSt) (newId : ℕ) (inp : MPMQuarterlyDataCreate) :
    QPlanSt × Except Err MPMQuarterlyData :=
  match get_by_quarter st.qds inp.action_plan_id inp.quarter with
  | some _ => (st, .error .conflict)
  | none =>
    let row : MPMQuarterlyData :=
      ⟨newId, inp.action_plan_id, inp.quarter, inp.target_value, inp.actual_value, false⟩
    let st1 := { st with qds := st.qds ++ [row] }
    match inp.actual_value with
    | some _ =>
      match update_action_plan_status st1 inp.action_plan_id with
      | (st2, .ok _) => (st2, .ok row)
      | (st2, .error e) => (st2, .error e)
    | none => (st1, .ok row)

/-- `MPMQuarterlyDataService.update_quarterly_data`: apply the supplied
fields, then refresh the owning plan's status only when the payload's
`actual_value` attribute `is not None` — i.e. it was supplied with a
non-null value.  Supplying `null` clears the stored value but skips the
refresh. -/
def update_quarterly_data (st : QPlanSt) (data_id : ℕ) (inp : MPMQuarterlyDataUpdate) :
    QPlanSt × Except Err MPMQuarterlyData :=
  match lookupQD st.qds data_id with
  | none => (st, .error .notFound)
  | some db_data =>
    let row : MPMQuarterlyData :=
      { db_data with
        target_value := inp.target_value.getD db_data.target_value
        actual_value := inp.actual_value.getD db_data.actual_value }
    let st1 := { st with
      qds := replaceFirst (fun r => r.id == data_id && !r.is_deleted)
        (fun _ => row) st.qds }
    match inp.actual_value with
    | some (some _) =>
      match update_action_plan_status st1 db_data.action_plan_id with
      | (st2, .ok _) => (st2, .ok row)
      | (st2, .error e) => (st2, .error e)
    | _ => (st1, .ok row)

/-! ## Periods: `PeriodRepository.update_status` (src/repositories/period.py)

The source's rejection branch would in fact raise an `AttributeError` (the
`status` parameter shadows the imported fastapi `status` module inside the
`HTTPException` constructor call), but either way an exception propagates
before any mutation; the model represents the aborted call as an error
with an unchanged store. -/

inductive PeriodStatus where
  | draft
  | active
  | closed
  deriving DecidableEq, Repr

structure PeriodRow where
  id : ℕ
  status : PeriodStatus
  is_deleted : Bool
  deriving DecidableEq, Repr

def lookupPeriodRow (rows : List PeriodRow) (i : ℕ) : Option PeriodRow :=
  (rows.filter (fun r => r.id == i && !r.is_deleted)).head?

/-- `PeriodRepository.get_active_period`: first non-deleted row with status
Active. -/
def get_active_period (rows : List PeriodRow) : Option PeriodRow :=
  (rows.filter (fun r => r.status == PeriodStatus.active && !r.is_deleted)).head?

/-- `PeriodRepository.update_status`: 404 when the period does not resolve;
when activating, reject if a *different* period is already active;
otherwise set the status. -/
def period_update_status (rows : List PeriodRow) (id : ℕ) (stat : PeriodStatus) :
    List PeriodRow × Except Err PeriodRow :=
  match lookupPeriodRow rows id with
  | none => (rows, .error .notFound)
  | some db_obj =>
    let apply : List PeriodRow × Except Err PeriodRow :=
      let row := { db_obj with status := stat }
      (replaceFirst (fun r => r.id == id && !r.is_deleted) (fun _ => row) rows, .ok row)
    if stat = PeriodStatus.active then
      match get_active_period rows with
      | some active_period =>
        if active_period.id != id then (rows, .error .conflict) else apply
      | none => apply
    else apply

/-- Number of non-deleted periods with status Active. -/
def countActive (rows : List PeriodRow) : ℕ :=
  (rows.filter (fun r => r.status == PeriodStatus.active && !r.is_deleted)).length

/-- Run a sequence of `update_status` calls, keeping the store of each step
(errors leave it unchanged). -/
def applySeq (rows : List PeriodRow) (calls : List (ℕ × PeriodStatus)) :
    List PeriodRow :=
  calls.foldl (fun r c => (period_update_status r c.1 c.2).1) rows

/-! ## Dashboard aggregation (src/repositories/bsc.py `get_dashboard_data`,
src/repositories/mpm.py `get_dashboard_data`)

Numeric fields are exact rationals here; the claims in this layer concern
which indicators are grouped and summed, not decimal context rounding.
The MPM dashboard also fetches each indicator's monthly targets and action
plans into its item; those fields enter no total and are omitted. -/

structure BSCIndicatorQ where
  id : ℕ
  perspective : String
  weight : ℚ
  period_id : ℕ
  is_active : Bool
  is_deleted : Bool
  deriving DecidableEq, Repr

structure BSCActualQ where
  id : ℕ
  indicator_id : ℕ
  score : ℚ
  active_weight : ℚ
  score_akhir : ℚ
  created_at : ℕ
  is_deleted : Bool
  deriving DecidableEq, Repr

/-- `BSCIndicatorRepository.get_by_period`: non-deleted indicators of the
period.  Note: the source does **not** filter on `is_active`. -/
def bsc_get_by_period (inds : List BSCIndicatorQ) (period_id : ℕ) :
    List BSCIndicatorQ :=
  inds.filter (fun i => i.period_id == period_id && !i.is_deleted)

/-- The actuals query of `BSCIndicatorRepository.get_dashboard_data`: it
has **no** `order_by` clause, so the rows come back in table (insertion)
order; the code then takes `actuals[0]`. -/
def bscActualsFor (acts : List BSCActualQ) (indicator_id : ℕ) : List BSCActualQ :=
  acts.filter (fun a => a.indicator_id == indicator_id && !a.is_deleted)

structure BSCBucket where
  items : List (BSCIndicatorQ × Option BSCActualQ)
  total_weight : ℚ
  total_score : ℚ
  total_active_weight : ℚ
  total_score_akhir : ℚ
  deriving DecidableEq, Repr

def emptyBSCBucket : BSCBucket := ⟨[], 0, 0, 0, 0⟩

structure BSCDashboard where
  perspectives : List (String × BSCBucket)
  total_weight : ℚ
  total_score : ℚ
  total_active_weight : ℚ
  total_score_akhir : ℚ
  deriving DecidableEq, Repr

/-- Update the bucket of key `k` (Python `data[perspective]`, a dict in
insertion order), creating it from `e` at the end when absent. -/
def updateAssoc {β : Type} (k : String) (f : β → β) (e : β) :
    List (String × β) → List (String × β)
  | [] => [(k, f e)]
  | (k', b) :: rest =>
    if k' = k then (k', f b) :: rest else (k', b) :: updateAssoc k f e rest

/-- One iteration of the `for indicator in indicators` loop of the BSC
`get_dashboard_data`: pair the indicator with `actuals[0] if actuals else
None`, append the item to its perspective bucket, always add the weight to
the bucket and period totals, and add the score fields only `if actuals`. -/
def bscStep (acts : List BSCActualQ) (d : BSCDashboard) (ind : BSCIndicatorQ) :
    BSCDashboard :=
  let actual := (bscActualsFor acts ind.id).head?
  let addItem : BSCBucket → BSCBucket := fun b =>
    match actual with
    | some a =>
      { items := b.items ++ [(ind, some a)]
        total_weight := b.total_weight + ind.weight
        total_score := b.total_score + a.score
        total_active_weight := b.total_active_weight + a.active_weight
        total_score_akhir := b.total_score_akhir + a.score_akhir }
    | none =>
      { items := b.items ++ [(ind, none)]
        total_weight := b.total_weight + ind.weight
        total_score := b.total_score
        total_active_weight := b.total_active_weight
        total_score_akhir := b.total_score_akhir }
  { perspectives := updateAssoc ind.perspective addItem emptyBSCBucket d.perspectives
    total_weight := d.total_weight + ind.weight
    total_score := match actual with | some a => d.total_score + a.score | none => d.total_score
    total_active_weight :=
      match actual with | some a => d.total_active_weight + a.active_weight | none => d.total_active_weight
    total_score_akhir :=
      match actual with | some a => d.total_score_akhir + a.score_akhir | none => d.total_score_akhir }

/-- `BSCIndicatorRepository.get_dashboard_data` for a period. -/
def bsc_get_dashboard_data (inds : List BSCIndicatorQ) (acts : List BSCActualQ)
    (period_id : ℕ) : BSCDashboard :=
  (bsc_get_by_period inds period_id).foldl (bscStep acts) ⟨[], 0, 0, 0, 0⟩

structure MPMIndicatorQ where
  id : ℕ
  perspective : Option String
  weight : ℚ
  period_id : ℕ
  is_active : Bool
  is_deleted : Bool
  deriving DecidableEq, Repr

structure MPMActualQ where
  id : ℕ
  indicator_id : ℕ
  score : ℚ
  created_at : ℕ
  is_deleted : Bool
  deriving DecidableEq, Repr

/-- `MPMIndicatorRepository.get_by_period`: non-deleted indicators of the
period (again no `is_active` filter).  Its `order_by(perspective,
kpi_number)` only permutes the rows; the claims below quantify over the
resulting buckets, so the model keeps table order. -/
def mpm_get_by_period (inds : List MPMIndicatorQ) (period_id : ℕ) :
    List MPMIndicatorQ :=
  inds.filter (fun i => i.period_id == period_id && !i.is_deleted)

def mpmActualsFor (acts : List MPMActualQ) (indicator_id : ℕ) : List MPMActualQ :=
  acts.filter (fun a => a.indicator_id == indicator_id && !a.is_deleted)

/-- Insert into a list sorted by `created_at` descending (the MPM dashboard
actual query has `order_by(created_at desc)`). -/
def insertByCreatedDesc (x : MPMActualQ) : List MPMActualQ → List MPMActualQ
  | [] => [x]
  | y :: ys =>
    if y.created_at < x.created_at then x :: y :: ys else y :: insertByCreatedDesc x ys

def sortByCreatedDesc : List MPMActualQ → List MPMActualQ
  | [] => []
  | x :: xs => insertByCreatedDesc x (sortByCreatedDesc xs)

structure MPMBucket where
  items : List (MPMIndicatorQ × Option MPMActualQ)
  total_weight : ℚ
  total_score : ℚ
  deriving DecidableEq, Repr

def emptyMPMBucket : MPMBucket := ⟨[], 0, 0⟩

structure MPMDashboard where
  perspectives : List (String × MPMBucket)
  total_weight : ℚ
  total_score : ℚ
  deriving DecidableEq, Repr

/-- One iteration of the MPM `get_dashboard_data` loop: the bucket key is
`indicator.perspective or "Other"`, the paired actual is the first row of
the actuals query ordered by `created_at` descending. -/
def mpmStep (acts : List MPMActualQ) (d : MPMDashboard) (ind : MPMIndicatorQ) :
    MPMDashboard :=
  let actual := (sortByCreatedDesc (mpmActualsFor acts ind.id)).head?
  let addItem : MPMBucket → MPMBucket := fun b =>
    match actual with
    | some a =>
      { items := b.items ++ [(ind, some a)]
        total_weight := b.total_weight + ind.weight
        total_score := b.total_score + a.score }
    | none =>
      { items := b.items ++ [(ind, none)]
        total_weight := b.total_weight + ind.weight
        total_score := b.total_score }
  { perspectives := updateAssoc (ind.perspective.getD "Other") addItem emptyMPMBucket d.perspectives
    total_weight := d.total_weight + ind.weight
    total_score := match actual with | some a => d.total_score + a.score | none => d.total_score }

/-- `MPMIndicatorRepository.get_dashboard_data` for a period. -/
def mpm_get_dashboard_data (inds : List MPMIndicatorQ) (acts : List MPMActualQ)
    (period_id : ℕ) : MPMDashboard :=
  (mpm_get_by_period inds period_id).foldl (mpmStep acts) ⟨[], 0, 0⟩

/-- Score contribution of an optional paired actual: an indicator without
an actual contributes zero. -/
def bscScoreOf (o : Option BSCActualQ) : ℚ := match o with | some a => a.score | none => 0

def bscActiveWeightOf (o : Option BSCActualQ) : ℚ :=
  match o with | some a => a.active_weight | none => 0

def bscScoreAkhirOf (o : Option BSCActualQ) : ℚ :=
  match o with | some a => a.score_akhir | none => 0

def mpmScoreOf (o : Option MPMActualQ) : ℚ := match o with | some a => a.score | none => 0

/-- Bucket-level sums as the spec states them: weight over all items,
score-type sums over items that have an actual (`bscScoreOf` of a missing
actual is zero). -/
def bscBucketOK (b : BSCBucket) : Prop :=
  b.total_weight = (b.items.map (fun it => it.1.weight)).sum ∧
  b.total_score = (b.items.map (fun it => bscScoreOf it.2)).sum ∧
  b.total_active_weight = (b.items.map (fun it => bscActiveWeightOf it.2)).sum ∧
  b.total_score_akhir = (b.items.map (fun it => bscScoreAkhirOf it.2)).sum

/-- Dashboard invariant: every bucket satisfies `bscBucketOK` and the
period-level totals are the same sums taken over all items of all
buckets. -/
def bscDashOK (d : BSCDashboard) : Prop :=
  (∀ kb ∈ d.perspectives, bscBucketOK kb.2) ∧
  d.total_weight = ((d.perspectives.map (fun kb => ((kb.2.items.map (fun it => it.1.weight)).sum))).sum) ∧
  d.total_score = ((d.perspectives.map (fun kb => ((kb.2.items.map (fun it => bscScoreOf it.2)).sum))).sum) ∧
  d.total_active_weight = ((d.perspectives.map (fun kb => ((kb.2.items.map (fun it => bscActiveWeightOf it.2)).sum))).sum) ∧
  d.total_score_akhir = ((d.perspectives.map (fun kb => ((kb.2.items.map (fun it => bscScoreAkhirOf it.2)).sum))).sum)

def mpmBucketOK (b : MPMBucket) : Prop :=
  b.total_weight = (b.items.map (fun it => it.1.weight)).sum ∧
  b.total_score = (b.items.map (fun it => mpmScoreOf it.2)).sum

def mpmDashOK (d : MPMDashboard) : Prop :=
  (∀ kb ∈ d.perspectives, mpmBucketOK kb.2) ∧
  d.total_weight = ((d.perspectives.map (fun kb => ((kb.2.items.map (fun it => it.1.weight)).sum))).sum) ∧
  d.total_score = ((d.perspectives.map (fun kb => ((kb.2.items.map (fun it => mpmScoreOf it.2)).sum))).sum)

/-! # Lemmas and claim theorems -/

namespace Dec

theorem val_eq_zpow (x : Dec) : x.val = (x.m : ℚ) * (10 : ℚ) ^ x.e := by
  unfold val
  by_cases h : 0 ≤ x.e
  · rw [if_pos h, ← zpow_natCast (10 : ℚ), Int.toNat_of_nonneg h]
  · rw [if_neg h, div_eq_mul_inv, ← zpow_natCast (10 : ℚ),
      Int.toNat_of_nonneg (by omega : (0 : ℤ) ≤ -x.e), ← zpow_neg, neg_neg]

theorem val_mk (m e : ℤ) : (Dec.mk m e).val = (m : ℚ) * (10 : ℚ) ^ e := val_eq_zpow _

/-- Context rounding is the identity on mantissas of at most 28 digits. -/
theorem round28_eq_self {x : Dec} (h : digits10 x.m.natAbs ≤ 28) : round28 x = x := by
  unfold round28
  simp [h]

/-- Value of an exact (unrounded) mantissa product. -/
theorem val_mul_of_small {x y : Dec} (h : digits10 (x.m * y.m).natAbs ≤ 28) :
    (mul x y).val = x.val * y.val := by
  unfold mul
  rw [round28_eq_self h, val_mk, val_eq_zpow, val_eq_zpow, Int.cast_mul,
    zpow_add₀ (by norm_num : (10 : ℚ) ≠ 0)]
  ring

/-- Value of an exact division by `10 ^ k`. -/
theorem val_divPow10_of_small {x : Dec} {k : ℕ} (h : digits10 x.m.natAbs ≤ 28) :
    (divPow10 x k).val = x.val / (10 : ℚ) ^ k := by
  unfold divPow10
  rw [round28_eq_self (x := ⟨x.m, x.e - (k : ℤ)⟩) h, val_mk, val_eq_zpow,
    zpow_sub₀ (by norm_num : (10 : ℚ) ≠ 0), zpow_natCast]
  ring

/-- The executable comparison agrees with comparison of values. -/
theorem ble_iff (x y : Dec) : ble x y = true ↔ x.val ≤ y.val := by
  have hten : (10 : ℚ) ≠ 0 := by norm_num
  have hpos : (0 : ℚ) < (10 : ℚ) ^ (-(min x.e y.e)) := zpow_pos (by norm_num) _
  have key : ∀ z : Dec, min x.e y.e ≤ z.e →
      ((z.m * 10 ^ (z.e - min x.e y.e).toNat : ℤ) : ℚ)
        = z.val * (10 : ℚ) ^ (-(min x.e y.e)) := by
    intro z hz
    rw [val_eq_zpow]
    push_cast
    rw [← zpow_natCast (10 : ℚ) (z.e - min x.e y.e).toNat,
      Int.toNat_of_nonneg (by omega : (0 : ℤ) ≤ z.e - min x.e y.e),
      zpow_sub₀ hten, zpow_neg, div_eq_mul_inv, mul_assoc]
  unfold ble
  rw [decide_eq_true_eq, ← Int.cast_le (R := ℚ), key x (min_le_left _ _),
    key y (min_le_right _ _)]
  exact mul_le_mul_right hpos

end Dec

/-- The MPM score computation is exact whenever the product of the two
mantissas fits in the 28-digit context precision (the division by 10² is
then exact as well). -/
theorem mpmScoreCalc_val {w a : Dec} (h : Dec.digits10 (w.m * a.m).natAbs ≤ 28) :
    (mpmScoreCalc w a).val = w.val * a.val / 100 := by
  unfold mpmScoreCalc Dec.mul
  rw [Dec.round28_eq_self (x := ⟨w.m * a.m, w.e + a.e⟩) h,
    Dec.val_divPow10_of_small (x := ⟨w.m * a.m, w.e + a.e⟩) h, Dec.val_mk,
    Dec.val_eq_zpow, Dec.val_eq_zpow, Int.cast_mul,
    zpow_add₀ (by norm_num : (10 : ℚ) ≠ 0)]
  norm_num
  ring

/-- C1 (counterexample): the claim asserts the persisted MPM score equals
(w × a) / 100 *exactly* for every weight w ∈ [0,100] and achievement
a ≥ 0.  For weight 13 and the 28-digit achievement 1111111111111111111111111111
the context multiplication rounds 13·a (29 digits) half-even to 28
significant digits, so the persisted score 144444444444444444444444444.4
differs from the exact (13·a)/100 = 144444444444444444444444444.43. -/
theorem mpm_score_exact_counterexample :
    (MPMcreate_actual ⟨[⟨1, "K", ⟨13, 0⟩, 1, true, false⟩], []⟩ 2
        ⟨1, ⟨0, 0⟩, ⟨1111111111111111111111111111, 0⟩⟩).2
      = Except.ok ⟨2, 1, ⟨0, 0⟩, ⟨1111111111111111111111111111, 0⟩,
          ⟨1444444444444444444444444444, -1⟩, false⟩ ∧
    (⟨1444444444444444444444444444, -1⟩ : Dec).val
      ≠ (⟨13, 0⟩ : Dec).val * (⟨1111111111111111111111111111, 0⟩ : Dec).val / 100 := by
  constructor
  · rfl
  · norm_num [Dec.val, Int.toNat_ofNat]

/-- C1 (amended): for every MPM actual created via `create_actual`, or
updated via `update_actual` with `actual_value` or `achievement` in the
payload, the persisted score equals (weight × achievement) / 100 exactly —
no binary floating point is involved — provided the product of the weight
and achievement mantissas fits in the 28-significant-digit context
precision (true of every realistic input, e.g. weights with ≤ 5
significant digits and achievements with ≤ 23). -/
theorem mpm_score_exact
    (st : MPMSt) (newId : ℕ) (inp : MPMActualCreate) (indicator : MPMIndicator)
    (hfound : lookupMPMIndicator st.inds inp.indicator_id = some indicator)
    (hdig : Dec.digits10 (indicator.weight.m * inp.achievement.m).natAbs ≤ 28)
    (st2 : MPMSt) (actual_id : ℕ) (inp2 : MPMActualUpdate)
    (db : MPMActual) (ind2 : MPMIndicator)
    (hdb : lookupMPMActual st2.acts actual_id = some db)
    (hchanged : (inp2.actual_value.isSome || inp2.achievement.isSome) = true)
    (hind2 : lookupMPMIndicator st2.inds db.indicator_id = some ind2)
    (hdig2 : Dec.digits10 (ind2.weight.m * (inp2.achievement.getD db.achievement).m).natAbs ≤ 28) :
    (∃ r, (MPMcreate_actual st newId inp).2 = .ok r ∧
      r.score.val = indicator.weight.val * inp.achievement.val / 100) ∧
    (∃ r, (MPMupdate_actual st2 actual_id inp2).2 = .ok r ∧
      r.score.val = ind2.weight.val * (inp2.achievement.getD db.achievement).val / 100) := by
  constructor
  · have h : (MPMcreate_actual st newId inp).2
        = .ok ⟨newId, inp.indicator_id, inp.actual_value, inp.achievement,
            mpmScoreCalc indicator.weight inp.achievement, false⟩ := by
      simp only [MPMcreate_actual, hfound]
    exact ⟨_, h, mpmScoreCalc_val hdig⟩
  · have h : (MPMupdate_actual st2 actual_id inp2).2
        = .ok { db with
            actual_value := inp2.actual_value.getD db.actual_value
            achievement := inp2.achievement.getD db.achievement
            score := mpmScoreCalc ind2.weight (inp2.achievement.getD db.achievement) } := by
      simp only [MPMupdate_actual, hdb, hchanged, hind2, if_true]
    exact ⟨_, h, mpmScoreCalc_val hdig2⟩

/-- C1 (witness): the spec's own scenario — weight 50, achievement 80 —
through both `create_actual` and `update_actual`. -/
theorem mpm_score_exact_witness :
    (∃ r, (MPMcreate_actual ⟨[⟨1, "K", ⟨50, 0⟩, 1, true, false⟩],
        [⟨5, 1, ⟨0, 0⟩, ⟨70, 0⟩, ⟨35, 0⟩, false⟩]⟩ 9 ⟨1, ⟨0, 0⟩, ⟨80, 0⟩⟩).2 = .ok r ∧
      r.score.val = (⟨1, "K", ⟨50, 0⟩, 1, true, false⟩ : MPMIndicator).weight.val
        * (⟨1, ⟨0, 0⟩, ⟨80, 0⟩⟩ : MPMActualCreate).achievement.val / 100) ∧
    (∃ r, (MPMupdate_actual ⟨[⟨1, "K", ⟨50, 0⟩, 1, true, false⟩],
        [⟨5, 1, ⟨0, 0⟩, ⟨70, 0⟩, ⟨35, 0⟩, false⟩]⟩ 5 ⟨some ⟨0, 0⟩, some ⟨80, 0⟩⟩).2 = .ok r ∧
      r.score.val = (⟨1, "K", ⟨50, 0⟩, 1, true, false⟩ : MPMIndicator).weight.val
        * ((⟨some ⟨0, 0⟩, some ⟨80, 0⟩⟩ : MPMActualUpdate).achievement.getD
            (⟨5, 1, ⟨0, 0⟩, ⟨70, 0⟩, ⟨35, 0⟩, false⟩ : MPMActual).achievement).val / 100) :=
  mpm_score_exact
    ⟨[⟨1, "K", ⟨50, 0⟩, 1, true, false⟩], [⟨5, 1, ⟨0, 0⟩, ⟨70, 0⟩, ⟨35, 0⟩, false⟩]⟩
    9 ⟨1, ⟨0, 0⟩, ⟨80, 0⟩⟩ ⟨1, "K", ⟨50, 0⟩, 1, true, false⟩ (by decide) (by decide)
    ⟨[⟨1, "K", ⟨50, 0⟩, 1, true, false⟩], [⟨5, 1, ⟨0, 0⟩, ⟨70, 0⟩, ⟨35, 0⟩, false⟩]⟩
    5 ⟨some ⟨0, 0⟩, some ⟨80, 0⟩⟩ ⟨5, 1, ⟨0, 0⟩, ⟨70, 0⟩, ⟨35, 0⟩, false⟩
    ⟨1, "K", ⟨50, 0⟩, 1, true, false⟩ (by decide) (by decide) (by decide) (by decide)

/-- C2 (code bug): for a BSC indicator of weight 30 and an actual with
achievement 90, the persisted fields are score = 27 and active_weight = 60
as claimed, with score_akhir = total_score — but total_score is
27 · Decimal(0.2) = 5.400000000000000299760216649 under the default
context, not score × 0.2 = 5.40: the constant `Decimal(0.2)` converts the
binary double nearest to 0.2 instead of the decimal 0.2 (compare
`Decimal('0.8')` used correctly in mpm.py). -/
theorem bsc_total_score_float_drift :
    (BSCcreate_actual ⟨[⟨1, "C1", ⟨30, 0⟩, 1, true, false⟩], []⟩ 7 ⟨1, "90", ⟨90, 0⟩⟩).2
      = Except.ok ⟨7, 1, "90", ⟨90, 0⟩, ⟨2700, -2⟩, ⟨60, 0⟩,
          ⟨5400000000000000299760216649, -27⟩, ⟨5400000000000000299760216649, -27⟩, false⟩ ∧
    (⟨2700, -2⟩ : Dec).val = 27 ∧
    (⟨60, 0⟩ : Dec).val = 60 ∧
    (⟨5400000000000000299760216649, -27⟩ : Dec).val ≠ 27 * ((2 : ℚ) / 10) := by
  refine ⟨by rfl, ?_, ?_, ?_⟩
  · norm_num [Dec.val, show ((2 : ℤ)).toNat = 2 from rfl]
  · norm_num [Dec.val]
  · norm_num [Dec.val, show ((27 : ℤ)).toNat = 27 from rfl]

theorem mem_insertByQuarterDesc {x y : MPMQuarterlyData} :
    ∀ {l : List MPMQuarterlyData}, y ∈ insertByQuarterDesc x l ↔ y = x ∨ y ∈ l := by
  intro l
  induction l with
  | nil => simp [insertByQuarterDesc]
  | cons z zs ih =>
    unfold insertByQuarterDesc
    by_cases h : z.quarter < x.quarter
    · simp [h]
    · simp only [if_neg h, List.mem_cons, ih]
      tauto

theorem mem_sortByQuarterDesc {y : MPMQuarterlyData} :
    ∀ {l : List MPMQuarterlyData}, y ∈ sortByQuarterDesc l ↔ y ∈ l := by
  intro l
  induction l with
  | nil => simp [sortByQuarterDesc]
  | cons z zs ih =>
    unfold sortByQuarterDesc
    rw [mem_insertByQuarterDesc, ih, List.mem_cons]

/-- The head of the descending sort is the strict maximum (by quarter
label), whenever the list has one. -/
theorem sortByQuarterDesc_head_max :
    ∀ (l : List MPMQuarterlyData) (x : MPMQuarterlyData), x ∈ l →
      (∀ y ∈ l, y ≠ x → y.quarter < x.quarter) →
      (sortByQuarterDesc l).head? = some x := by
  intro l
  induction l with
  | nil => intro x hx; simp at hx
  | cons z zs ih =>
    intro x hx hmax
    rcases List.mem_cons.mp hx with hz | hzs
    · subst hz
      show (insertByQuarterDesc x (sortByQuarterDesc zs)).head? = some x
      cases hs : sortByQuarterDesc zs with
      | nil => simp [insertByQuarterDesc]
      | cons w ws =>
        have hwzs : w ∈ zs :=
          mem_sortByQuarterDesc.mp (hs ▸ List.mem_cons_self w ws)
        by_cases hlt : w.quarter < x.quarter
        · simp [insertByQuarterDesc, hlt]
        · have hw : w = x := by
            by_contra hne
            exact hlt (hmax w (List.mem_cons_of_mem _ hwzs) hne)
          subst hw
          simp [insertByQuarterDesc, hlt]
    · have ihz : (sortByQuarterDesc zs).head? = some x :=
        ih x hzs (fun y hy hne => hmax y (List.mem_cons_of_mem _ hy) hne)
      show (insertByQuarterDesc z (sortByQuarterDesc zs)).head? = some x
      cases hs : sortByQuarterDesc zs with
      | nil => rw [hs] at ihz; simp at ihz
      | cons w ws =>
        rw [hs] at ihz
        simp only [List.head?_cons, Option.some.injEq] at ihz
        subst ihz
        by_cases hlt : w.quarter < z.quarter
        · have hz : z = w := by
            by_contra hne
            exact absurd hlt (asymm (hmax z (List.mem_cons_self z zs) hne))
          subst hz
          simp [insertByQuarterDesc, hlt]
        · simp [insertByQuarterDesc, hlt]

/-- C3 (counterexample): the claim asserts the boundary
`actual = 0.8 × target` is classified At Risk for *every* action plan.
For the 29-digit target 10000000000000000000000000007 the code's threshold
`target * Decimal('0.8')` is context-rounded up to
8000000000000000000000000006, so the actual 8000000000000000000000000005.6,
which equals 0.8 × target exactly, is classified Off Track. -/
theorem calculate_status_boundary_counterexample :
    calculate_status [⟨1, 1, "Q1", ⟨10000000000000000000000000007, 0⟩,
        some ⟨80000000000000000000000000056, -1⟩, false⟩] 1 = MPMStatus.offTrack ∧
    (⟨80000000000000000000000000056, -1⟩ : Dec).val
      = (⟨10000000000000000000000000007, 0⟩ : Dec).val * ((8 : ℚ) / 10) := by
  exact ⟨by decide, by norm_num [Dec.val]⟩

/-- C3 (amended): `calculate_status` returns On Track when the plan has no
non-deleted quarterly datum with a non-null actual; otherwise it is a pure
function of the datum with the greatest quarter label among those — earlier
quarters never influence the result — returning On Track when
actual ≥ target, At Risk when actual ≥ 0.8 × target (boundary inclusive),
and Off Track otherwise, provided 8 × the target's mantissa fits in the
28-digit context precision (every realistic target), so that the code's
context-rounded threshold `target * Decimal('0.8')` is exactly
0.8 × target. -/
theorem calculate_status_latest_quarter
    (qds0 : List MPMQuarterlyData) (pid0 : ℕ) (h0 : statusCands qds0 pid0 = [])
    (qds : List MPMQuarterlyData) (pid : ℕ) (q : MPMQuarterlyData) (a : Dec)
    (hq : q ∈ statusCands qds pid)
    (hmax : ∀ y ∈ statusCands qds pid, y ≠ q → y.quarter < q.quarter)
    (ha : q.actual_value = some a)
    (hdig : Dec.digits10 (q.target_value.m * 8).natAbs ≤ 28) :
    calculate_status qds0 pid0 = MPMStatus.onTrack ∧
    calculate_status qds pid =
      (if q.target_value.val ≤ a.val then MPMStatus.onTrack
       else if q.target_value.val * ((8 : ℚ) / 10) ≤ a.val then MPMStatus.atRisk
       else MPMStatus.offTrack) := by
  constructor
  · unfold calculate_status
    rw [h0]
    rfl
  · unfold calculate_status
    rw [sortByQuarterDesc_head_max _ q hq hmax]
    simp only [ha]
    have h1 : (Dec.ble q.target_value a = true) = (q.target_value.val ≤ a.val) :=
      propext (Dec.ble_iff _ _)
    have hth : (Dec.mul q.target_value dec08).val
        = q.target_value.val * ((8 : ℚ) / 10) := by
      rw [Dec.val_mul_of_small hdig,
        show dec08.val = (8 : ℚ) / 10 by norm_num [dec08, Dec.val]]
    have h2 : (Dec.ble (Dec.mul q.target_value dec08) a = true)
        = (q.target_value.val * ((8 : ℚ) / 10) ≤ a.val) := by
      rw [propext (Dec.ble_iff _ _), hth]
    simp only [h1, h2]

/-- C3 (witness): a plan whose only reported quarter has target 100 and
actual 80 — the inclusive boundary — and a plan with no reported actual. -/
theorem calculate_status_latest_quarter_witness :
    calculate_status [⟨9, 2, "Q3", ⟨5, 0⟩, none, false⟩] 2 = MPMStatus.onTrack ∧
    calculate_status [⟨1, 1, "Q4", ⟨100, 0⟩, some ⟨80, 0⟩, false⟩] 1 =
      (if (⟨1, 1, "Q4", ⟨100, 0⟩, some ⟨80, 0⟩, false⟩
            : MPMQuarterlyData).target_value.val ≤ (⟨80, 0⟩ : Dec).val
        then MPMStatus.onTrack
       else if (⟨1, 1, "Q4", ⟨100, 0⟩, some ⟨80, 0⟩, false⟩
            : MPMQuarterlyData).target_value.val * ((8 : ℚ) / 10) ≤ (⟨80, 0⟩ : Dec).val
        then MPMStatus.atRisk
       else MPMStatus.offTrack) :=
  calculate_status_latest_quarter [⟨9, 2, "Q3", ⟨5, 0⟩, none, false⟩] 2 (by rfl)
    [⟨1, 1, "Q4", ⟨100, 0⟩, some ⟨80, 0⟩, false⟩] 1
    ⟨1, 1, "Q4", ⟨100, 0⟩, some ⟨80, 0⟩, false⟩ ⟨80, 0⟩
    (by decide) (by decide) (by rfl) (by decide)

/-- C7: `create_actual` (BSC and MPM) with an `indicator_id` that does not
resolve to a non-deleted indicator fails with NotFound and leaves the
actual store untouched (the exception is raised before any `session.add`);
when the indicator resolves, exactly one actual row is appended and
nothing else changes. -/
theorem create_actual_notfound_or_single
    (stB : BSCSt) (nB : ℕ) (inpB : BSCActualCreate)
    (hB : lookupBSCIndicator stB.inds inpB.indicator_id = none)
    (stB2 : BSCSt) (nB2 : ℕ) (inpB2 : BSCActualCreate) (indB : BSCIndicator)
    (hB2 : lookupBSCIndicator stB2.inds inpB2.indicator_id = some indB)
    (stM : MPMSt) (nM : ℕ) (inpM : MPMActualCreate)
    (hM : lookupMPMIndicator stM.inds inpM.indicator_id = none)
    (stM2 : MPMSt) (nM2 : ℕ) (inpM2 : MPMActualCreate) (indM : MPMIndicator)
    (hM2 : lookupMPMIndicator stM2.inds inpM2.indicator_id = some indM) :
    BSCcreate_actual stB nB inpB = (stB, .error .notFound) ∧
    (∃ r, BSCcreate_actual stB2 nB2 inpB2
        = ({ stB2 with acts := stB2.acts ++ [r] }, .ok r)) ∧
    MPMcreate_actual stM nM inpM = (stM, .error .notFound) ∧
    (∃ r, MPMcreate_actual stM2 nM2 inpM2
        = ({ stM2 with acts := stM2.acts ++ [r] }, .ok r)) := by
  have hBok : BSCcreate_actual stB2 nB2 inpB2
      = ({ stB2 with acts := stB2.acts ++
            [⟨nB2, inpB2.indicator_id, inpB2.actual_value, inpB2.achievement,
              (bscDerive indB.weight inpB2.achievement).1,
              (bscDerive indB.weight inpB2.achievement).2.1,
              (bscDerive indB.weight inpB2.achievement).2.2,
              (bscDerive indB.weight inpB2.achievement).2.2, false⟩] },
        .ok ⟨nB2, inpB2.indicator_id, inpB2.actual_value, inpB2.achievement,
              (bscDerive indB.weight inpB2.achievement).1,
              (bscDerive indB.weight inpB2.achievement).2.1,
              (bscDerive indB.weight inpB2.achievement).2.2,
              (bscDerive indB.weight inpB2.achievement).2.2, false⟩) := by
    simp only [BSCcreate_actual, hB2]
  have hMok : MPMcreate_actual stM2 nM2 inpM2
      = ({ stM2 with acts := stM2.acts ++
            [⟨nM2, inpM2.indicator_id, inpM2.actual_value, inpM2.achievement,
              mpmScoreCalc indM.weight inpM2.achievement, false⟩] },
        .ok ⟨nM2, inpM2.indicator_id, inpM2.actual_value, inpM2.achievement,
              mpmScoreCalc indM.weight inpM2.achievement, false⟩) := by
    simp only [MPMcreate_actual, hM2]
  exact ⟨by simp only [BSCcreate_actual, hB], ⟨_, hBok⟩,
    by simp only [MPMcreate_actual, hM], ⟨_, hMok⟩⟩

/-- C7 (witness): an empty store (nothing resolves) and a one-indicator
store. -/
theorem create_actual_notfound_or_single_witness :
    BSCcreate_actual ⟨[], []⟩ 3 ⟨1, "5", ⟨50, 0⟩⟩ = (⟨[], []⟩, .error .notFound) ∧
    (∃ r, BSCcreate_actual ⟨[⟨1, "C", ⟨30, 0⟩, 1, true, false⟩], []⟩ 4 ⟨1, "5", ⟨50, 0⟩⟩
        = (⟨[⟨1, "C", ⟨30, 0⟩, 1, true, false⟩], [] ++ [r]⟩, .ok r)) ∧
    MPMcreate_actual ⟨[], []⟩ 3 ⟨1, ⟨5, 0⟩, ⟨50, 0⟩⟩ = (⟨[], []⟩, .error .notFound) ∧
    (∃ r, MPMcreate_actual ⟨[⟨1, "K", ⟨30, 0⟩, 1, true, false⟩], []⟩ 4 ⟨1, ⟨5, 0⟩, ⟨50, 0⟩⟩
        = (⟨[⟨1, "K", ⟨30, 0⟩, 1, true, false⟩], [] ++ [r]⟩, .ok r)) :=
  create_actual_notfound_or_single
    ⟨[], []⟩ 3 ⟨1, "5", ⟨50, 0⟩⟩ (by rfl)
    ⟨[⟨1, "C", ⟨30, 0⟩, 1, true, false⟩], []⟩ 4 ⟨1, "5", ⟨50, 0⟩⟩
    ⟨1, "C", ⟨30, 0⟩, 1, true, false⟩ (by rfl)
    ⟨[], []⟩ 3 ⟨1, ⟨5, 0⟩, ⟨50, 0⟩⟩ (by rfl)
    ⟨[⟨1, "K", ⟨30, 0⟩, 1, true, false⟩], []⟩ 4 ⟨1, ⟨5, 0⟩, ⟨50, 0⟩⟩
    ⟨1, "K", ⟨30, 0⟩, 1, true, false⟩ (by rfl)

theorem replaceFirst_eq_self {α : Type} (p : α → Bool) (f : α → α) :
    ∀ l : List α, (∀ a ∈ l, p a = true → f a = a) → replaceFirst p f l = l := by
  intro l
  induction l with
  | nil => intro _; rfl
  | cons x xs ih =>
    intro h
    unfold replaceFirst
    by_cases hp : p x = true
    · rw [if_pos hp, h x (List.mem_cons_self x xs) hp]
    · rw [if_neg hp, ih (fun a ha hpa => h a (List.mem_cons_of_mem _ ha) hpa)]

theorem map_replaceFirst {α β : Type} (g : α → β) (p : α → Bool) (f : α → α)
    (hf : ∀ a, p a = true → g (f a) = g a) :
    ∀ l : List α, (replaceFirst p f l).map g = l.map g := by
  intro l
  induction l with
  | nil => rfl
  | cons x xs ih =>
    unfold replaceFirst
    by_cases hp : p x = true
    · rw [if_pos hp]
      simp only [List.map_cons, hf x hp, ih]
    · rw [if_neg hp]
      simp only [List.map_cons, ih]

theorem countActive_cons (x : PeriodRow) (xs : List PeriodRow) :
    countActive (x :: xs)
      = (if (x.status == PeriodStatus.active && !x.is_deleted) = true then 1 else 0)
        + countActive xs := by
  unfold countActive
  rw [List.filter_cons]
  split
  · simp [List.length_cons, Nat.add_comm]
  · simp

theorem replaceFirst_cons {α : Type} (p : α → Bool) (f : α → α) (x : α) (xs : List α) :
    replaceFirst p f (x :: xs)
      = if p x then f x :: xs else x :: replaceFirst p f xs := rfl

theorem countActive_replaceFirst_le (p : PeriodRow → Bool) (f : PeriodRow → PeriodRow) :
    ∀ l, countActive (replaceFirst p f l) ≤ countActive l + 1 := by
  intro l
  induction l with
  | nil => simp [replaceFirst]
  | cons x xs ih =>
    rw [replaceFirst_cons]
    by_cases hp : p x = true
    · rw [if_pos hp, countActive_cons, countActive_cons]
      split <;> split <;> omega
    · rw [if_neg hp, countActive_cons, countActive_cons]
      split <;> omega

theorem countActive_replaceFirst_of_not_active (p : PeriodRow → Bool)
    (f : PeriodRow → PeriodRow)
    (hf : ∀ a, p a = true → ((f a).status == PeriodStatus.active && !(f a).is_deleted) = false) :
    ∀ l, countActive (replaceFirst p f l) ≤ countActive l := by
  intro l
  induction l with
  | nil => simp [replaceFirst]
  | cons x xs ih =>
    rw [replaceFirst_cons]
    by_cases hp : p x = true
    · rw [if_pos hp, countActive_cons, countActive_cons]
      by_cases hfx : ((f x).status == PeriodStatus.active && !(f x).is_deleted) = true
      · rw [hf x hp] at hfx
        exact absurd hfx (by simp)
      · simp only [if_neg hfx]
        by_cases hx : (x.status == PeriodStatus.active && !x.is_deleted) = true
        · simp only [if_pos hx]
          omega
        · simp only [if_neg hx]
          omega
    · rw [if_neg hp, countActive_cons, countActive_cons]
      by_cases hx : (x.status == PeriodStatus.active && !x.is_deleted) = true
      · simp only [if_pos hx]
        omega
      · simp only [if_neg hx]
        omega

theorem eq_singleton_of_length_le_one {α : Type} {l : List α} (h : l.length ≤ 1)
    {x : α} (hx : x ∈ l) : l = [x] := by
  cases l with
  | nil => simp at hx
  | cons y ys =>
    cases ys with
    | nil => simp at hx; rw [hx]
    | cons z zs => simp at h

theorem lookupPeriodRow_some {rows : List PeriodRow} {i : ℕ} {db : PeriodRow}
    (h : lookupPeriodRow rows i = some db) :
    db ∈ rows ∧ db.id = i ∧ db.is_deleted = false := by
  unfold lookupPeriodRow at h
  have hmem : db ∈ rows.filter (fun r => r.id == i && !r.is_deleted) :=
    List.mem_of_mem_head? (Option.mem_def.mpr h)
  have := List.mem_filter.mp hmem
  refine ⟨this.1, ?_, ?_⟩
  · have := this.2
    simp only [Bool.and_eq_true, beq_iff_eq, Bool.not_eq_eq_eq_not] at this
    exact this.1
  · have := this.2
    simp only [Bool.and_eq_true, beq_iff_eq, Bool.not_eq_eq_eq_not] at this
    simpa using this.2

theorem get_active_period_some {rows : List PeriodRow} {q : PeriodRow}
    (h : get_active_period rows = some q) :
    q ∈ rows ∧ q.status = PeriodStatus.active ∧ q.is_deleted = false := by
  unfold get_active_period at h
  have hmem : q ∈ rows.filter (fun r => r.status == PeriodStatus.active && !r.is_deleted) :=
    List.mem_of_mem_head? (Option.mem_def.mpr h)
  have := List.mem_filter.mp hmem
  refine ⟨this.1, ?_, ?_⟩
  · have := this.2
    simp only [Bool.and_eq_true, beq_iff_eq, Bool.not_eq_eq_eq_not] at this
    exact this.1
  · have := this.2
    simp only [Bool.and_eq_true, beq_iff_eq, Bool.not_eq_eq_eq_not] at this
    simpa using this.2

/-- With at most one active period, any active non-deleted row *is* the one
`get_active_period` returns. -/
theorem get_active_period_eq {rows : List PeriodRow} (h1 : countActive rows ≤ 1)
    {q : PeriodRow} (hq : q ∈ rows) (hact : q.status = PeriodStatus.active)
    (hdel : q.is_deleted = false) : get_active_period rows = some q := by
  have hqf : q ∈ rows.filter (fun r => r.status == PeriodStatus.active && !r.is_deleted) := by
    rw [List.mem_filter]
    exact ⟨hq, by simp [hact, hdel]⟩
  have := eq_singleton_of_length_le_one (l := rows.filter _) h1 hqf
  unfold get_active_period
  rw [this]
  rfl

/-- One `update_status` call keeps at most one period active and never
touches the set of ids. -/
theorem period_update_status_step (rows : List PeriodRow) (id : ℕ) (stat : PeriodStatus)
    (hn : (rows.map PeriodRow.id).Nodup) (h1 : countActive rows ≤ 1) :
    countActive (period_update_status rows id stat).1 ≤ 1 ∧
    ((period_update_status rows id stat).1.map PeriodRow.id) = rows.map PeriodRow.id := by
  unfold period_update_status
  cases hlk : lookupPeriodRow rows id with
  | none => exact ⟨h1, rfl⟩
  | some db =>
    obtain ⟨hdbmem, hdbid, hdbdel⟩ := lookupPeriodRow_some hlk
    have happly : (replaceFirst (fun r => r.id == id && !r.is_deleted)
        (fun _ => { db with status := stat }) rows).map PeriodRow.id
          = rows.map PeriodRow.id := by
      refine map_replaceFirst _ _ _ ?_ rows
      intro a hpa
      simp only [Bool.and_eq_true, beq_iff_eq] at hpa
      simp [hpa.1, hdbid]
    dsimp only
    by_cases hs : stat = PeriodStatus.active
    · rw [if_pos hs]
      cases hga : get_active_period rows with
      | none =>
        dsimp only
        have hzero : countActive rows = 0 := by
          unfold countActive
          unfold get_active_period at hga
          rw [List.head?_eq_none_iff.mp hga]
          rfl
        refine ⟨?_, happly⟩
        have := countActive_replaceFirst_le (fun r => r.id == id && !r.is_deleted)
          (fun _ => { db with status := stat }) rows
        omega
      | some ap =>
        obtain ⟨hapmem, hapact, hapdel⟩ := get_active_period_some hga
        dsimp only
        by_cases hap : (ap.id != id) = true
        · rw [if_pos hap]
          exact ⟨h1, rfl⟩
        · rw [if_neg hap]
          have hapid : ap.id = id := by
            simp only [bne, Bool.not_eq_true, Bool.not_eq_false] at hap
            simpa using hap
          have hself : replaceFirst (fun r => r.id == id && !r.is_deleted)
              (fun _ => { db with status := stat }) rows = rows := by
            refine replaceFirst_eq_self _ _ rows ?_
            intro a hamem hpa
            simp only [Bool.and_eq_true, beq_iff_eq] at hpa
            have haid : a.id = db.id := by rw [hpa.1, hdbid]
            have hadb : a = db := List.inj_on_of_nodup_map hn hamem hdbmem haid
            have hdbap : db = ap :=
              List.inj_on_of_nodup_map hn hdbmem hapmem (by rw [hdbid, hapid])
            subst hadb
            have hst : a.status = stat := by rw [hdbap, hapact, hs]
            rw [← hst]
          dsimp only
          rw [hself]
          exact ⟨h1, rfl⟩
    · rw [if_neg hs]
      dsimp only
      refine ⟨?_, happly⟩
      have hmono := countActive_replaceFirst_of_not_active
        (fun r => r.id == id && !r.is_deleted)
        (fun _ => { db with status := stat })
        (by
          intro a _
          have hb : (stat == PeriodStatus.active) = false := by
            simpa using hs
          simp [hb]) rows
      omega

/-- C8: starting from a store with unique ids (the primary-key constraint)
and at most one non-deleted Active period, (i) a call requesting Active on
a period while a *different* non-deleted period is Active errors out with
the store — hence the target's status — unchanged, and (ii) no sequence of
`update_status` calls ever produces two Active periods.  (In the source the
rejection branch raises `AttributeError` rather than the intended
`HTTPException(400)` — the `status` parameter shadows the fastapi module —
but either exception propagates before any mutation.) -/
theorem period_single_active
    (rows : List PeriodRow) (hn : (rows.map PeriodRow.id).Nodup)
    (h1 : countActive rows ≤ 1) :
    (∀ id q, q ∈ rows → q.status = PeriodStatus.active → q.is_deleted = false →
      q.id ≠ id →
      (period_update_status rows id PeriodStatus.active).1 = rows ∧
      ∃ e, (period_update_status rows id PeriodStatus.active).2 = .error e) ∧
    (∀ calls : List (ℕ × PeriodStatus), countActive (applySeq rows calls) ≤ 1) := by
  constructor
  · intro id q hqmem hqact hqdel hqid
    have hga : get_active_period rows = some q := get_active_period_eq h1 hqmem hqact hqdel
    unfold period_update_status
    cases hlk : lookupPeriodRow rows id with
    | none => exact ⟨rfl, ⟨.notFound, rfl⟩⟩
    | some db =>
      dsimp only
      rw [if_pos rfl, hga]
      dsimp only
      have hap : (q.id != id) = true := by simp [hqid]
      rw [if_pos hap]
      exact ⟨rfl, ⟨.conflict, rfl⟩⟩
  · intro calls
    have main : ∀ (cs : List (ℕ × PeriodStatus)) (rs : List PeriodRow),
        (rs.map PeriodRow.id).Nodup → countActive rs ≤ 1 →
        countActive (applySeq rs cs) ≤ 1 := by
      intro cs
      induction cs with
      | nil => intro rs _ h; exact h
      | cons c cs ih =>
        intro rs hnd hc
        have hstep := period_update_status_step rs c.1 c.2 hnd hc
        have hnd' : (((period_update_status rs c.1 c.2).1).map PeriodRow.id).Nodup := by
          rw [hstep.2]; exact hnd
        exact ih _ hnd' hstep.1
    exact main calls rows hn h1

/-- C8 (witness): a store with one Active and one Draft period. -/
theorem period_single_active_witness :
    (∀ id q, q ∈ [(⟨1, PeriodStatus.active, false⟩ : PeriodRow),
        ⟨2, PeriodStatus.draft, false⟩] →
      q.status = PeriodStatus.active → q.is_deleted = false → q.id ≠ id →
      (period_update_status [⟨1, PeriodStatus.active, false⟩,
          ⟨2, PeriodStatus.draft, false⟩] id PeriodStatus.active).1
        = [⟨1, PeriodStatus.active, false⟩, ⟨2, PeriodStatus.draft, false⟩] ∧
      ∃ e, (period_update_status [⟨1, PeriodStatus.active, false⟩,
          ⟨2, PeriodStatus.draft, false⟩] id PeriodStatus.active).2 = .error e) ∧
    (∀ calls : List (ℕ × PeriodStatus),
      countActive (applySeq [⟨1, PeriodStatus.active, false⟩,
        ⟨2, PeriodStatus.draft, false⟩] calls) ≤ 1) :=
  period_single_active
    [⟨1, PeriodStatus.active, false⟩, ⟨2, PeriodStatus.draft, false⟩]
    (by decide) (by decide)

/-- C9 (code bug): the uniqueness invariant — at most one non-deleted BSC
indicator per (code, period) — is not preserved by `update_indicator`.
Starting from two indicators with the same code "X" in periods 1 and 2 (a
state the create-path check allows), an update of indicator 1 that changes
only `period_id` to 2 skips the duplicate check entirely (it runs only
when the payload carries a changed `code`) and succeeds, leaving two
non-deleted indicators with key ("X", 2). -/
theorem bsc_unique_code_update_bug :
    bscUniqueCodes [⟨1, "X", ⟨10, 0⟩, 1, true, false⟩,
      ⟨2, "X", ⟨10, 0⟩, 2, true, false⟩] = true ∧
    (BSCupdate_indicator [⟨1, "X", ⟨10, 0⟩, 1, true, false⟩,
        ⟨2, "X", ⟨10, 0⟩, 2, true, false⟩] 1 ⟨none, some 2, none⟩).2
      = Except.ok ⟨1, "X", ⟨10, 0⟩, 2, true, false⟩ ∧
    (BSCupdate_indicator [⟨1, "X", ⟨10, 0⟩, 1, true, false⟩,
        ⟨2, "X", ⟨10, 0⟩, 2, true, false⟩] 1 ⟨none, some 2, none⟩).1
      = [⟨1, "X", ⟨10, 0⟩, 2, true, false⟩, ⟨2, "X", ⟨10, 0⟩, 2, true, false⟩] ∧
    bscUniqueCodes [⟨1, "X", ⟨10, 0⟩, 2, true, false⟩,
      ⟨2, "X", ⟨10, 0⟩, 2, true, false⟩] = false := by
  exact ⟨by rfl, by rfl, by rfl, by rfl⟩

/-- C10: a `create_quarterly_data` call whose payload has `actual_value`
absent (None), and an `update_quarterly_data` call whose payload has
`actual_value` absent or explicitly null, leave every action plan — in
particular the owning one — untouched: the status recomputation fires only
when the payload itself carries a non-null `actual_value`, even though the
update may have changed the data the stored status was derived from. -/
theorem quarterly_without_actual_keeps_status
    (stc : QPlanSt) (newId : ℕ) (inpc : MPMQuarterlyDataCreate)
    (hc : inpc.actual_value = none)
    (stu : QPlanSt) (data_id : ℕ) (inpu : MPMQuarterlyDataUpdate)
    (hu : inpu.actual_value = none ∨ inpu.actual_value = some none) :
    (create_quarterly_data stc newId inpc).1.plans = stc.plans ∧
    (update_quarterly_data stu data_id inpu).1.plans = stu.plans := by
  constructor
  · unfold create_quarterly_data
    cases hq : get_by_quarter stc.qds inpc.action_plan_id inpc.quarter with
    | some x => rfl
    | none =>
      dsimp only
      rw [hc]
  · unfold update_quarterly_data
    cases hlk : lookupQD stu.qds data_id with
    | none => rfl
    | some db =>
      dsimp only
      rcases hu with hu | hu <;> rw [hu]

/-- C10 (witness): a plan stored as Off Track; creating a quarterly datum
without an actual and updating one to clear its target leave it Off
Track. -/
theorem quarterly_without_actual_keeps_status_witness :
    (create_quarterly_data ⟨[⟨1, 1, MPMStatus.offTrack, false⟩],
        [⟨5, 1, "Q1", ⟨10, 0⟩, none, false⟩]⟩ 6
        ⟨1, "Q2", ⟨20, 0⟩, none⟩).1.plans = [⟨1, 1, MPMStatus.offTrack, false⟩] ∧
    (update_quarterly_data ⟨[⟨1, 1, MPMStatus.offTrack, false⟩],
        [⟨5, 1, "Q1", ⟨10, 0⟩, none, false⟩]⟩ 5
        ⟨some ⟨30, 0⟩, some none⟩).1.plans = [⟨1, 1, MPMStatus.offTrack, false⟩] :=
  quarterly_without_actual_keeps_status
    ⟨[⟨1, 1, MPMStatus.offTrack, false⟩], [⟨5, 1, "Q1", ⟨10, 0⟩, none, false⟩]⟩ 6
    ⟨1, "Q2", ⟨20, 0⟩, none⟩ (by rfl)
    ⟨[⟨1, 1, MPMStatus.offTrack, false⟩], [⟨5, 1, "Q1", ⟨10, 0⟩, none, false⟩]⟩ 5
    ⟨some ⟨30, 0⟩, some none⟩ (Or.inr (by rfl))

theorem updateAssoc_cons {β : Type} (k : String) (f : β → β) (e : β)
    (k' : String) (b : β) (rest : List (String × β)) :
    updateAssoc k f e ((k', b) :: rest)
      = if k' = k then (k', f b) :: rest else (k', b) :: updateAssoc k f e rest := rfl

/-- A property of bucket values preserved by the modifier and holding of a
freshly created bucket holds of every bucket after an update. -/
theorem mem_updateAssoc_forall {β : Type} {P : β → Prop} (k : String) (f : β → β) (e : β) :
    ∀ l : List (String × β), (∀ kb ∈ l, P kb.2) → (∀ b, P b → P (f b)) → P (f e) →
      ∀ kb ∈ updateAssoc k f e l, P kb.2 := by
  intro l
  induction l with
  | nil =>
    intro _ _ he kb hkb
    simp only [updateAssoc, List.mem_singleton] at hkb
    rw [hkb]
    exact he
  | cons hd tl ih =>
    intro hl hf he kb hkb
    obtain ⟨k', b⟩ := hd
    rw [updateAssoc_cons] at hkb
    by_cases hk : k' = k
    · rw [if_pos hk] at hkb
      rcases List.mem_cons.mp hkb with h | h
      · rw [h]
        exact hf b (hl (k', b) (List.mem_cons_self _ _))
      · exact hl kb (List.mem_cons_of_mem _ h)
    · rw [if_neg hk] at hkb
      rcases List.mem_cons.mp hkb with h | h
      · rw [h]
        exact hl (k', b) (List.mem_cons_self _ _)
      · exact ih (fun kb hkb => hl kb (List.mem_cons_of_mem _ hkb)) hf he kb h

/-- A sum over the buckets grows by exactly the modifier's contribution. -/
theorem sum_updateAssoc {β : Type} (g : β → ℚ) (k : String) (f : β → β) (e : β) (δ : ℚ)
    (hf : ∀ b, g (f b) = g b + δ) (he : g (f e) = δ) :
    ∀ l : List (String × β),
      ((updateAssoc k f e l).map (fun kb => g kb.2)).sum
        = (l.map (fun kb => g kb.2)).sum + δ := by
  intro l
  induction l with
  | nil => simp [updateAssoc, he]
  | cons hd tl ih =>
    obtain ⟨k', b⟩ := hd
    rw [updateAssoc_cons]
    by_cases hk : k' = k
    · rw [if_pos hk]
      simp only [List.map_cons, List.sum_cons, hf b]
      ring
    · rw [if_neg hk]
      simp only [List.map_cons, List.sum_cons, ih]
      ring

/-- Item membership across the buckets after an update: the old items plus
the one appended item. -/
theorem exists_mem_updateAssoc {β γ : Type} (itemsOf : β → List γ) (k : String)
    (f : β → β) (e : β) (it : γ) (hf : ∀ b, itemsOf (f b) = itemsOf b ++ [it])
    (he : itemsOf e = []) (x : γ) :
    ∀ l : List (String × β),
      (∃ kb ∈ updateAssoc k f e l, x ∈ itemsOf kb.2)
        ↔ (∃ kb ∈ l, x ∈ itemsOf kb.2) ∨ x = it := by
  intro l
  induction l with
  | nil =>
    constructor
    · rintro ⟨kb, hkb, hx⟩
      simp only [updateAssoc, List.mem_singleton] at hkb
      rw [hkb] at hx
      simp only [hf, he, List.nil_append, List.mem_singleton] at hx
      exact Or.inr hx
    · rintro (⟨kb, hkb, hx⟩ | hx)
      · simp at hkb
      · exact ⟨(k, f e), List.mem_singleton.mpr rfl, by simp [hf, he, hx]⟩
  | cons hd tl ih =>
    obtain ⟨k', b⟩ := hd
    rw [updateAssoc_cons]
    by_cases hk : k' = k
    · rw [if_pos hk]
      constructor
      · rintro ⟨kb, hkb, hx⟩
        rcases List.mem_cons.mp hkb with h | h
        · rw [h] at hx
          simp only [hf, List.mem_append, List.mem_singleton] at hx
          rcases hx with hx | hx
          · exact Or.inl ⟨(k', b), List.mem_cons_self _ _, hx⟩
          · exact Or.inr hx
        · exact Or.inl ⟨kb, List.mem_cons_of_mem _ h, hx⟩
      · rintro (⟨kb, hkb, hx⟩ | hx)
        · rcases List.mem_cons.mp hkb with h | h
          · refine ⟨(k', f b), List.mem_cons_self _ _, ?_⟩
            rw [h] at hx
            simp [hf, hx]
          · exact ⟨kb, List.mem_cons_of_mem _ h, hx⟩
        · exact ⟨(k', f b), List.mem_cons_self _ _, by simp [hf, hx]⟩
    · rw [if_neg hk]
      constructor
      · rintro ⟨kb, hkb, hx⟩
        rcases List.mem_cons.mp hkb with h | h
        · rw [h] at hx
          exact Or.inl ⟨(k', b), List.mem_cons_self _ _, hx⟩
        · rcases (ih.mp ⟨kb, h, hx⟩) with h2 | h2
          · obtain ⟨kb2, hkb2, hx2⟩ := h2
            exact Or.inl ⟨kb2, List.mem_cons_of_mem _ hkb2, hx2⟩
          · exact Or.inr h2
      · rintro (⟨kb, hkb, hx⟩ | hx)
        · rcases List.mem_cons.mp hkb with h | h
          · rw [h] at hx
            exact ⟨(k', b), List.mem_cons_self _ _, hx⟩
          · obtain ⟨kb2, hkb2, hx2⟩ := ih.mpr (Or.inl ⟨kb, h, hx⟩)
            exact ⟨kb2, List.mem_cons_of_mem _ hkb2, hx2⟩
        · obtain ⟨kb2, hkb2, hx2⟩ := ih.mpr (Or.inr hx)
          exact ⟨kb2, List.mem_cons_of_mem _ hkb2, hx2⟩

theorem bscStep_ok (acts : List BSCActualQ) (d : BSCDashboard) (ind : BSCIndicatorQ)
    (h : bscDashOK d) : bscDashOK (bscStep acts d ind) := by
  obtain ⟨hb, hw, hs, ha, hk⟩ := h
  cases ho : (bscActualsFor acts ind.id).head? with
  | some a =>
    simp only [bscStep, ho]
    refine ⟨?_, ?_, ?_, ?_, ?_⟩
    · refine mem_updateAssoc_forall (P := bscBucketOK) _ _ _ _ hb ?_ ?_
      · rintro b ⟨h1, h2, h3, h4⟩
        refine ⟨?_, ?_, ?_, ?_⟩ <;>
          simp [h1, h2, h3, h4, bscScoreOf, bscActiveWeightOf, bscScoreAkhirOf]
      · refine ⟨?_, ?_, ?_, ?_⟩ <;>
          simp [emptyBSCBucket, bscScoreOf, bscActiveWeightOf, bscScoreAkhirOf]
    · have hsum := sum_updateAssoc (fun b : BSCBucket => (b.items.map (fun it => it.1.weight)).sum)
        ind.perspective
        (fun b : BSCBucket =>
          ⟨b.items ++ [(ind, some a)], b.total_weight + ind.weight, b.total_score + a.score,
            b.total_active_weight + a.active_weight, b.total_score_akhir + a.score_akhir⟩)
        emptyBSCBucket ind.weight (fun b => by simp) (by simp [emptyBSCBucket]) d.perspectives
      rw [hw]
      exact hsum.symm
    · have hsum := sum_updateAssoc (fun b : BSCBucket => (b.items.map (fun it => bscScoreOf it.2)).sum)
        ind.perspective
        (fun b : BSCBucket =>
          ⟨b.items ++ [(ind, some a)], b.total_weight + ind.weight, b.total_score + a.score,
            b.total_active_weight + a.active_weight, b.total_score_akhir + a.score_akhir⟩)
        emptyBSCBucket a.score (fun b => by simp [bscScoreOf]) (by simp [emptyBSCBucket, bscScoreOf])
        d.perspectives
      rw [hs]
      exact hsum.symm
    · have hsum := sum_updateAssoc (fun b : BSCBucket => (b.items.map (fun it => bscActiveWeightOf it.2)).sum)
        ind.perspective
        (fun b : BSCBucket =>
          ⟨b.items ++ [(ind, some a)], b.total_weight + ind.weight, b.total_score + a.score,
            b.total_active_weight + a.active_weight, b.total_score_akhir + a.score_akhir⟩)
        emptyBSCBucket a.active_weight (fun b => by simp [bscActiveWeightOf])
        (by simp [emptyBSCBucket, bscActiveWeightOf]) d.perspectives
      rw [ha]
      exact hsum.symm
    · have hsum := sum_updateAssoc (fun b : BSCBucket => (b.items.map (fun it => bscScoreAkhirOf it.2)).sum)
        ind.perspective
        (fun b : BSCBucket =>
          ⟨b.items ++ [(ind, some a)], b.total_weight + ind.weight, b.total_score + a.score,
            b.total_active_weight + a.active_weight, b.total_score_akhir + a.score_akhir⟩)
        emptyBSCBucket a.score_akhir (fun b => by simp [bscScoreAkhirOf])
        (by simp [emptyBSCBucket, bscScoreAkhirOf]) d.perspectives
      rw [hk]
      exact hsum.symm
  | none =>
    simp only [bscStep, ho]
    refine ⟨?_, ?_, ?_, ?_, ?_⟩
    · refine mem_updateAssoc_forall (P := bscBucketOK) _ _ _ _ hb ?_ ?_
      · rintro b ⟨h1, h2, h3, h4⟩
        refine ⟨?_, ?_, ?_, ?_⟩ <;>
          simp [h1, h2, h3, h4, bscScoreOf, bscActiveWeightOf, bscScoreAkhirOf]
      · refine ⟨?_, ?_, ?_, ?_⟩ <;>
          simp [emptyBSCBucket, bscScoreOf, bscActiveWeightOf, bscScoreAkhirOf]
    · have hsum := sum_updateAssoc (fun b : BSCBucket => (b.items.map (fun it => it.1.weight)).sum)
        ind.perspective
        (fun b : BSCBucket =>
          ⟨b.items ++ [(ind, none)], b.total_weight + ind.weight, b.total_score,
            b.total_active_weight, b.total_score_akhir⟩)
        emptyBSCBucket ind.weight (fun b => by simp) (by simp [emptyBSCBucket]) d.perspectives
      rw [hw]
      exact hsum.symm
    · have hsum := sum_updateAssoc (fun b : BSCBucket => (b.items.map (fun it => bscScoreOf it.2)).sum)
        ind.perspective
        (fun b : BSCBucket =>
          ⟨b.items ++ [(ind, none)], b.total_weight + ind.weight, b.total_score,
            b.total_active_weight, b.total_score_akhir⟩)
        emptyBSCBucket 0 (fun b => by simp [bscScoreOf]) (by simp [emptyBSCBucket, bscScoreOf])
        d.perspectives
      rw [hs, hsum]
      ring
    · have hsum := sum_updateAssoc (fun b : BSCBucket => (b.items.map (fun it => bscActiveWeightOf it.2)).sum)
        ind.perspective
        (fun b : BSCBucket =>
          ⟨b.items ++ [(ind, none)], b.total_weight + ind.weight, b.total_score,
            b.total_active_weight, b.total_score_akhir⟩)
        emptyBSCBucket 0 (fun b => by simp [bscActiveWeightOf])
        (by simp [emptyBSCBucket, bscActiveWeightOf]) d.perspectives
      rw [ha, hsum]
      ring
    · have hsum := sum_updateAssoc (fun b : BSCBucket => (b.items.map (fun it => bscScoreAkhirOf it.2)).sum)
        ind.perspective
        (fun b : BSCBucket =>
          ⟨b.items ++ [(ind, none)], b.total_weight + ind.weight, b.total_score,
            b.total_active_weight, b.total_score_akhir⟩)
        emptyBSCBucket 0 (fun b => by simp [bscScoreAkhirOf])
        (by simp [emptyBSCBucket, bscScoreAkhirOf]) d.perspectives
      rw [hk, hsum]
      ring

theorem mpmStep_ok (acts : List MPMActualQ) (d : MPMDashboard) (ind : MPMIndicatorQ)
    (h : mpmDashOK d) : mpmDashOK (mpmStep acts d ind) := by
  obtain ⟨hb, hw, hs⟩ := h
  cases ho : (sortByCreatedDesc (mpmActualsFor acts ind.id)).head? with
  | some a =>
    simp only [mpmStep, ho]
    refine ⟨?_, ?_, ?_⟩
    · refine mem_updateAssoc_forall (P := mpmBucketOK) _ _ _ _ hb ?_ ?_
      · rintro b ⟨h1, h2⟩
        exact ⟨by simp [h1], by simp [h2, mpmScoreOf]⟩
      · exact ⟨by simp [emptyMPMBucket], by simp [emptyMPMBucket, mpmScoreOf]⟩
    · have hsum := sum_updateAssoc (fun b : MPMBucket => (b.items.map (fun it => it.1.weight)).sum)
        (ind.perspective.getD "Other")
        (fun b : MPMBucket =>
          ⟨b.items ++ [(ind, some a)], b.total_weight + ind.weight, b.total_score + a.score⟩)
        emptyMPMBucket ind.weight (fun b => by simp) (by simp [emptyMPMBucket]) d.perspectives
      rw [hw]
      exact hsum.symm
    · have hsum := sum_updateAssoc (fun b : MPMBucket => (b.items.map (fun it => mpmScoreOf it.2)).sum)
        (ind.perspective.getD "Other")
        (fun b : MPMBucket =>
          ⟨b.items ++ [(ind, some a)], b.total_weight + ind.weight, b.total_score + a.score⟩)
        emptyMPMBucket a.score (fun b => by simp [mpmScoreOf]) (by simp [emptyMPMBucket, mpmScoreOf])
        d.perspectives
      rw [hs]
      exact hsum.symm
  | none =>
    simp only [mpmStep, ho]
    refine ⟨?_, ?_, ?_⟩
    · refine mem_updateAssoc_forall (P := mpmBucketOK) _ _ _ _ hb ?_ ?_
      · rintro b ⟨h1, h2⟩
        exact ⟨by simp [h1], by simp [h2, mpmScoreOf]⟩
      · exact ⟨by simp [emptyMPMBucket], by simp [emptyMPMBucket, mpmScoreOf]⟩
    · have hsum := sum_updateAssoc (fun b : MPMBucket => (b.items.map (fun it => it.1.weight)).sum)
        (ind.perspective.getD "Other")
        (fun b : MPMBucket =>
          ⟨b.items ++ [(ind, none)], b.total_weight + ind.weight, b.total_score⟩)
        emptyMPMBucket ind.weight (fun b => by simp) (by simp [emptyMPMBucket]) d.perspectives
      rw [hw]
      exact hsum.symm
    · have hsum := sum_updateAssoc (fun b : MPMBucket => (b.items.map (fun it => mpmScoreOf it.2)).sum)
        (ind.perspective.getD "Other")
        (fun b : MPMBucket =>
          ⟨b.items ++ [(ind, none)], b.total_weight + ind.weight, b.total_score⟩)
        emptyMPMBucket 0 (fun b => by simp [mpmScoreOf]) (by simp [emptyMPMBucket, mpmScoreOf])
        d.perspectives
      rw [hs, hsum]
      ring

theorem bsc_fold_ok (acts : List BSCActualQ) :
    ∀ (l : List BSCIndicatorQ) (d : BSCDashboard), bscDashOK d →
      bscDashOK (l.foldl (bscStep acts) d) := by
  intro l
  induction l with
  | nil => intro d h; exact h
  | cons x xs ih => intro d h; exact ih _ (bscStep_ok acts d x h)

theorem mpm_fold_ok (acts : List MPMActualQ) :
    ∀ (l : List MPMIndicatorQ) (d : MPMDashboard), mpmDashOK d →
      mpmDashOK (l.foldl (mpmStep acts) d) := by
  intro l
  induction l with
  | nil => intro d h; exact h
  | cons x xs ih => intro d h; exact ih _ (mpmStep_ok acts d x h)

theorem bsc_dashboard_ok (inds : List BSCIndicatorQ) (acts : List BSCActualQ) (pid : ℕ) :
    bscDashOK (bsc_get_dashboard_data inds acts pid) := by
  refine bsc_fold_ok acts _ _ ?_
  exact ⟨by intro kb hkb; simp at hkb, by simp, by simp, by simp, by simp⟩

theorem mpm_dashboard_ok (inds : List MPMIndicatorQ) (acts : List MPMActualQ) (pid : ℕ) :
    mpmDashOK (mpm_get_dashboard_data inds acts pid) := by
  refine mpm_fold_ok acts _ _ ?_
  exact ⟨by intro kb hkb; simp at hkb, by simp, by simp⟩

/-- C4: in every perspective bucket of the BSC and MPM dashboards,
total_weight is the sum of the weights of all indicators placed in the
bucket (with or without an actual), while the score-type totals sum only
the contributions of items whose paired actual exists (`bscScoreOf` /
`mpmScoreOf` of a missing actual is zero); the period-level totals obey
the same rule over all items of all buckets. -/
theorem dashboard_totals
    (indsB : List BSCIndicatorQ) (actsB : List BSCActualQ) (pidB : ℕ)
    (kB : String) (bB : BSCBucket)
    (hB : (kB, bB) ∈ (bsc_get_dashboard_data indsB actsB pidB).perspectives)
    (indsM : List MPMIndicatorQ) (actsM : List MPMActualQ) (pidM : ℕ)
    (kM : String) (bM : MPMBucket)
    (hM : (kM, bM) ∈ (mpm_get_dashboard_data indsM actsM pidM).perspectives) :
    (bB.total_weight = (bB.items.map (fun it => it.1.weight)).sum ∧
     bB.total_score = (bB.items.map (fun it => bscScoreOf it.2)).sum ∧
     bB.total_active_weight = (bB.items.map (fun it => bscActiveWeightOf it.2)).sum ∧
     bB.total_score_akhir = (bB.items.map (fun it => bscScoreAkhirOf it.2)).sum) ∧
    ((bsc_get_dashboard_data indsB actsB pidB).total_weight
      = (((bsc_get_dashboard_data indsB actsB pidB).perspectives.map
          (fun kb => ((kb.2.items.map (fun it => it.1.weight)).sum))).sum) ∧
     (bsc_get_dashboard_data indsB actsB pidB).total_score
      = (((bsc_get_dashboard_data indsB actsB pidB).perspectives.map
          (fun kb => ((kb.2.items.map (fun it => bscScoreOf it.2)).sum))).sum) ∧
     (bsc_get_dashboard_data indsB actsB pidB).total_active_weight
      = (((bsc_get_dashboard_data indsB actsB pidB).perspectives.map
          (fun kb => ((kb.2.items.map (fun it => bscActiveWeightOf it.2)).sum))).sum) ∧
     (bsc_get_dashboard_data indsB actsB pidB).total_score_akhir
      = (((bsc_get_dashboard_data indsB actsB pidB).perspectives.map
          (fun kb => ((kb.2.items.map (fun it => bscScoreAkhirOf it.2)).sum))).sum)) ∧
    (bM.total_weight = (bM.items.map (fun it => it.1.weight)).sum ∧
     bM.total_score = (bM.items.map (fun it => mpmScoreOf it.2)).sum) ∧
    ((mpm_get_dashboard_data indsM actsM pidM).total_weight
      = (((mpm_get_dashboard_data indsM actsM pidM).perspectives.map
          (fun kb => ((kb.2.items.map (fun it => it.1.weight)).sum))).sum) ∧
     (mpm_get_dashboard_data indsM actsM pidM).total_score
      = (((mpm_get_dashboard_data indsM actsM pidM).perspectives.map
          (fun kb => ((kb.2.items.map (fun it => mpmScoreOf it.2)).sum))).sum)) := by
  have hBok := bsc_dashboard_ok indsB actsB pidB
  have hMok := mpm_dashboard_ok indsM actsM pidM
  exact ⟨hBok.1 (kB, bB) hB,
    ⟨hBok.2.1, hBok.2.2.1, hBok.2.2.2.1, hBok.2.2.2.2⟩,
    hMok.1 (kM, bM) hM,
    ⟨hMok.2.1, hMok.2.2⟩⟩

/-- C4 (witness): the spec scenario — a period with an indicator of
weight 20 that has an actual scoring 10 and an indicator of weight 30 with
no actual gives a bucket with total_weight 50 = 20 + 30 and total_score
summing only the existing actual — plus an MPM indicator with a null
perspective landing in the "Other" bucket. -/
theorem dashboard_totals_witness :
    (⟨[(⟨1, "Financial", 20, 1, true, false⟩, some ⟨1, 1, 10, 0, 0, 1, false⟩),
        (⟨2, "Financial", 30, 1, true, false⟩, none)], 50, 10, 0, 0⟩ : BSCBucket).total_weight
      = (([(⟨1, "Financial", 20, 1, true, false⟩, some ⟨1, 1, 10, 0, 0, 1, false⟩),
          (⟨2, "Financial", 30, 1, true, false⟩, none)]
            : List (BSCIndicatorQ × Option BSCActualQ)).map (fun it => it.1.weight)).sum ∧
    (⟨[(⟨1, "Financial", 20, 1, true, false⟩, some ⟨1, 1, 10, 0, 0, 1, false⟩),
        (⟨2, "Financial", 30, 1, true, false⟩, none)], 50, 10, 0, 0⟩ : BSCBucket).total_score
      = (([(⟨1, "Financial", 20, 1, true, false⟩, some ⟨1, 1, 10, 0, 0, 1, false⟩),
          (⟨2, "Financial", 30, 1, true, false⟩, none)]
            : List (BSCIndicatorQ × Option BSCActualQ)).map (fun it => bscScoreOf it.2)).sum ∧
    (⟨[(⟨1, none, 20, 1, true, false⟩, some ⟨1, 1, 7, 1, false⟩)], 20, 7⟩ : MPMBucket).total_score
      = (([(⟨1, none, 20, 1, true, false⟩, some ⟨1, 1, 7, 1, false⟩)]
            : List (MPMIndicatorQ × Option MPMActualQ)).map (fun it => mpmScoreOf it.2)).sum ∧
    (mpm_get_dashboard_data [⟨1, none, 20, 1, true, false⟩] [⟨1, 1, 7, 1, false⟩] 1).total_weight
      = (((mpm_get_dashboard_data [⟨1, none, 20, 1, true, false⟩]
          [⟨1, 1, 7, 1, false⟩] 1).perspectives.map
          (fun kb => ((kb.2.items.map (fun it => it.1.weight)).sum))).sum) := by
  have h := dashboard_totals
    [⟨1, "Financial", 20, 1, true, false⟩, ⟨2, "Financial", 30, 1, true, false⟩]
    [⟨1, 1, 10, 0, 0, 1, false⟩] 1 "Financial"
    ⟨[(⟨1, "Financial", 20, 1, true, false⟩, some ⟨1, 1, 10, 0, 0, 1, false⟩),
      (⟨2, "Financial", 30, 1, true, false⟩, none)], 50, 10, 0, 0⟩
    (by norm_num [bsc_get_dashboard_data, bsc_get_by_period, bscStep, bscActualsFor, updateAssoc,
      emptyBSCBucket, List.filter_cons, List.filter_nil])
    [⟨1, none, 20, 1, true, false⟩] [⟨1, 1, 7, 1, false⟩] 1 "Other"
    ⟨[(⟨1, none, 20, 1, true, false⟩, some ⟨1, 1, 7, 1, false⟩)], 20, 7⟩
    (by norm_num [mpm_get_dashboard_data, mpm_get_by_period, mpmStep, mpmActualsFor, updateAssoc,
      emptyMPMBucket, List.filter_cons, List.filter_nil, sortByCreatedDesc, insertByCreatedDesc])
  exact ⟨h.1.1, h.1.2.1, h.2.2.1.2, h.2.2.2.1⟩

/-- C5 (code bug): the BSC dashboard's actuals query has no ORDER BY, so
`actuals[0]` is the first row in table (insertion) order — the *oldest*
actual — even though an actual created later exists for the indicator (and
the code comment says "most recent actual").  With an older actual scoring
1 and a newer one scoring 2, the dashboard pairs and sums the older one. -/
theorem bsc_dashboard_not_latest_actual :
    (bscActualsFor [⟨1, 1, 1, 0, 0, 1, false⟩, ⟨2, 1, 2, 0, 0, 2, false⟩] 1).head?
      = some ⟨1, 1, 1, 0, 0, 1, false⟩ ∧
    (⟨2, 1, 2, 0, 0, 2, false⟩ : BSCActualQ)
      ∈ bscActualsFor [⟨1, 1, 1, 0, 0, 1, false⟩, ⟨2, 1, 2, 0, 0, 2, false⟩] 1 ∧
    (⟨1, 1, 1, 0, 0, 1, false⟩ : BSCActualQ).created_at
      < (⟨2, 1, 2, 0, 0, 2, false⟩ : BSCActualQ).created_at ∧
    (bsc_get_dashboard_data [⟨1, "Financial", 20, 1, true, false⟩]
        [⟨1, 1, 1, 0, 0, 1, false⟩, ⟨2, 1, 2, 0, 0, 2, false⟩] 1).total_score = 1 ∧
    (bsc_get_dashboard_data [⟨1, "Financial", 20, 1, true, false⟩]
        [⟨1, 1, 1, 0, 0, 1, false⟩, ⟨2, 1, 2, 0, 0, 2, false⟩] 1).total_score
      ≠ (⟨2, 1, 2, 0, 0, 2, false⟩ : BSCActualQ).score := by
  refine ⟨?_, ?_, ?_, ?_, ?_⟩
  · norm_num [bscActualsFor, List.filter_cons, List.filter_nil]
  · norm_num [bscActualsFor, List.filter_cons, List.filter_nil]
  · norm_num
  · norm_num [bsc_get_dashboard_data, bsc_get_by_period, bscStep, bscActualsFor, updateAssoc,
      emptyBSCBucket, List.filter_cons, List.filter_nil]
  · norm_num [bsc_get_dashboard_data, bsc_get_by_period, bscStep, bscActualsFor, updateAssoc,
      emptyBSCBucket, List.filter_cons, List.filter_nil]

/-- C6 (counterexample): an indicator with `is_active = False` (and not
deleted) is included in the BSC dashboard — `get_by_period` filters only
on `is_deleted` — contributing its weight to the bucket and period totals,
where the claim says inactive indicators contribute to no bucket and no
total. -/
theorem dashboard_inactive_included_counterexample :
    (⟨1, "Financial", 20, 1, false, false⟩ : BSCIndicatorQ).is_active = false ∧
    (bsc_get_dashboard_data [⟨1, "Financial", 20, 1, false, false⟩] [] 1).total_weight = 20 ∧
    (bsc_get_dashboard_data [⟨1, "Financial", 20, 1, false, false⟩] [] 1).perspectives
      = [("Financial", ⟨[(⟨1, "Financial", 20, 1, false, false⟩, none)], 20, 0, 0, 0⟩)] := by
  refine ⟨rfl, ?_, ?_⟩
  · norm_num [bsc_get_dashboard_data, bsc_get_by_period, bscStep, bscActualsFor, updateAssoc,
      emptyBSCBucket, List.filter_cons, List.filter_nil]
  · norm_num [bsc_get_dashboard_data, bsc_get_by_period, bscStep, bscActualsFor, updateAssoc,
      emptyBSCBucket, List.filter_cons, List.filter_nil]

theorem exists_mem_bscStep (acts : List BSCActualQ) (d : BSCDashboard)
    (ind : BSCIndicatorQ) (x : BSCIndicatorQ × Option BSCActualQ) :
    (∃ kb ∈ (bscStep acts d ind).perspectives, x ∈ kb.2.items)
      ↔ (∃ kb ∈ d.perspectives, x ∈ kb.2.items)
        ∨ x = (ind, (bscActualsFor acts ind.id).head?) := by
  cases ho : (bscActualsFor acts ind.id).head? with
  | some a =>
    simp only [bscStep, ho]
    exact exists_mem_updateAssoc BSCBucket.items _ _ _ (ind, some a)
      (fun b => rfl) rfl x d.perspectives
  | none =>
    simp only [bscStep, ho]
    exact exists_mem_updateAssoc BSCBucket.items _ _ _ (ind, none)
      (fun b => rfl) rfl x d.perspectives

theorem exists_mem_mpmStep (acts : List MPMActualQ) (d : MPMDashboard)
    (ind : MPMIndicatorQ) (x : MPMIndicatorQ × Option MPMActualQ) :
    (∃ kb ∈ (mpmStep acts d ind).perspectives, x ∈ kb.2.items)
      ↔ (∃ kb ∈ d.perspectives, x ∈ kb.2.items)
        ∨ x = (ind, (sortByCreatedDesc (mpmActualsFor acts ind.id)).head?) := by
  cases ho : (sortByCreatedDesc (mpmActualsFor acts ind.id)).head? with
  | some a =>
    simp only [mpmStep, ho]
    exact exists_mem_updateAssoc MPMBucket.items _ _ _ (ind, some a)
      (fun b => rfl) rfl x d.perspectives
  | none =>
    simp only [mpmStep, ho]
    exact exists_mem_updateAssoc MPMBucket.items _ _ _ (ind, none)
      (fun b => rfl) rfl x d.perspectives

theorem exists_mem_bsc_fold (acts : List BSCActualQ) :
    ∀ (l : List BSCIndicatorQ) (d : BSCDashboard) (x : BSCIndicatorQ × Option BSCActualQ),
      ((∃ kb ∈ (l.foldl (bscStep acts) d).perspectives, x ∈ kb.2.items)
        ↔ (∃ kb ∈ d.perspectives, x ∈ kb.2.items)
          ∨ ∃ i ∈ l, x = (i, (bscActualsFor acts i.id).head?)) := by
  intro l
  induction l with
  | nil => intro d x; simp
  | cons hd tl ih =>
    intro d x
    rw [List.foldl_cons, ih, exists_mem_bscStep]
    simp only [List.mem_cons]
    constructor
    · rintro ((h | h) | ⟨i, hi, hx⟩)
      · exact Or.inl h
      · exact Or.inr ⟨hd, Or.inl rfl, h⟩
      · exact Or.inr ⟨i, Or.inr hi, hx⟩
    · rintro (h | ⟨i, (hi | hi), hx⟩)
      · exact Or.inl (Or.inl h)
      · exact Or.inl (Or.inr (by rw [hx, hi]))
      · exact Or.inr ⟨i, hi, hx⟩

theorem exists_mem_mpm_fold (acts : List MPMActualQ) :
    ∀ (l : List MPMIndicatorQ) (d : MPMDashboard) (x : MPMIndicatorQ × Option MPMActualQ),
      ((∃ kb ∈ (l.foldl (mpmStep acts) d).perspectives, x ∈ kb.2.items)
        ↔ (∃ kb ∈ d.perspectives, x ∈ kb.2.items)
          ∨ ∃ i ∈ l, x = (i, (sortByCreatedDesc (mpmActualsFor acts i.id)).head?)) := by
  intro l
  induction l with
  | nil => intro d x; simp
  | cons hd tl ih =>
    intro d x
    rw [List.foldl_cons, ih, exists_mem_mpmStep]
    simp only [List.mem_cons]
    constructor
    · rintro ((h | h) | ⟨i, hi, hx⟩)
      · exact Or.inl h
      · exact Or.inr ⟨hd, Or.inl rfl, h⟩
      · exact Or.inr ⟨i, Or.inr hi, hx⟩
    · rintro (h | ⟨i, (hi | hi), hx⟩)
      · exact Or.inl (Or.inl h)
      · exact Or.inl (Or.inr (by rw [hx, hi]))
      · exact Or.inr ⟨i, hi, hx⟩

/-- C6 (amended): the indicators appearing in the dashboard buckets (BSC
and MPM) are exactly the *non-deleted* indicators of the period —
regardless of `is_active`, which `get_by_period` does not filter on;
inactive non-deleted indicators are included and contribute to buckets and
totals. -/
theorem dashboard_indicator_membership
    (indsB : List BSCIndicatorQ) (actsB : List BSCActualQ) (pidB : ℕ) (i : BSCIndicatorQ)
    (indsM : List MPMIndicatorQ) (actsM : List MPMActualQ) (pidM : ℕ) (j : MPMIndicatorQ) :
    ((∃ kb ∈ (bsc_get_dashboard_data indsB actsB pidB).perspectives,
        ∃ o, (i, o) ∈ kb.2.items)
      ↔ (i ∈ indsB ∧ i.is_deleted = false ∧ i.period_id = pidB)) ∧
    ((∃ kb ∈ (mpm_get_dashboard_data indsM actsM pidM).perspectives,
        ∃ o, (j, o) ∈ kb.2.items)
      ↔ (j ∈ indsM ∧ j.is_deleted = false ∧ j.period_id = pidM)) := by
  constructor
  · constructor
    · rintro ⟨kb, hkb, o, ho⟩
      have h := (exists_mem_bsc_fold actsB (bsc_get_by_period indsB pidB) _ (i, o)).mp
        ⟨kb, hkb, ho⟩
      rcases h with h | ⟨i', hi', heq⟩
      · simp at h
      · have : i = i' := congrArg Prod.fst heq
        subst this
        have := List.mem_filter.mp hi'
        refine ⟨this.1, ?_, ?_⟩
        · have h2 := this.2
          simp only [Bool.and_eq_true, beq_iff_eq, Bool.not_eq_eq_eq_not] at h2
          simpa using h2.2
        · have h2 := this.2
          simp only [Bool.and_eq_true, beq_iff_eq, Bool.not_eq_eq_eq_not] at h2
          exact h2.1
    · rintro ⟨hmem, hdel, hpid⟩
      have hif : i ∈ bsc_get_by_period indsB pidB := by
        rw [bsc_get_by_period, List.mem_filter]
        exact ⟨hmem, by simp [hdel, hpid]⟩
      obtain ⟨kb, hkb, hx⟩ := (exists_mem_bsc_fold actsB (bsc_get_by_period indsB pidB) _
        (i, (bscActualsFor actsB i.id).head?)).mpr (Or.inr ⟨i, hif, rfl⟩)
      exact ⟨kb, hkb, _, hx⟩
  · constructor
    · rintro ⟨kb, hkb, o, ho⟩
      have h := (exists_mem_mpm_fold actsM (mpm_get_by_period indsM pidM) _ (j, o)).mp
        ⟨kb, hkb, ho⟩
      rcases h with h | ⟨j', hj', heq⟩
      · simp at h
      · have : j = j' := congrArg Prod.fst heq
        subst this
        have := List.mem_filter.mp hj'
        refine ⟨this.1, ?_, ?_⟩
        · have h2 := this.2
          simp only [Bool.and_eq_true, beq_iff_eq, Bool.not_eq_eq_eq_not] at h2
          simpa using h2.2
        · have h2 := this.2
          simp only [Bool.and_eq_true, beq_iff_eq, Bool.not_eq_eq_eq_not] at h2
          exact h2.1
    · rintro ⟨hmem, hdel, hpid⟩
      have hjf : j ∈ mpm_get_by_period indsM pidM := by
        rw [mpm_get_by_period, List.mem_filter]
        exact ⟨hmem, by simp [hdel, hpid]⟩
      obtain ⟨kb, hkb, hx⟩ := (exists_mem_mpm_fold actsM (mpm_get_by_period indsM pidM) _
        (j, (sortByCreatedDesc (mpmActualsFor actsM j.id)).head?)).mpr (Or.inr ⟨j, hjf, rfl⟩)
      exact ⟨kb, hkb, _, hx⟩
